import Mathlib

/-!
# hoaitan/cache: the multi-tier composite and its backends

A shallow embedding of the Go packages `cache`, `multi`, `local`, `redis` and `id`.

* The program state (the stores behind every backend, the variable behind the
  `ptr` argument of `Get`, whatever the caller's loader touches) is one value
  of an arbitrary type `S`, passed through every call.
* A Go `error` is a `GoError` (observed through `Error()`), `nil` is `none`.
* `Get` receives a callback.  What a `Get` does is therefore a `GetRun`: a tree
  that either returns, or invokes the callback it was handed and goes on with
  what the callback returned.
-/

namespace cache

/-- Go `error` values, observed through their `Error()` text. -/
structure GoError where
  Error : String
deriving DecidableEq, Repr

/-- The call `fmt.Errorf` on a format made of plain text and `%s` only, already formatted. -/
def Errorf (text : String) : GoError := ⟨text⟩

/-- The package variable `NotSupportedErr` of cache.go. -/
def NotSupportedErr : GoError := Errorf "not suppported"

/-- The behaviour of one call `Get(key, ptr, fn)`: `ret err s` returns `err` in state `s`;
`invoke s k` calls `fn()` in state `s` and continues as `k r t` when that call returned `r`
in state `t`. -/
inductive GetRun (S : Type) where
  | ret (err : Option GoError) (s : S) : GetRun S
  | invoke (s : S) (k : Option GoError → S → GetRun S) : GetRun S

/-- The result of running a call to the end: it returned, or it called a nil function. -/
inductive Outcome (S : Type) where
  | returned (err : Option GoError) (s : S) : Outcome S
  | nilCall (s : S) : Outcome S

/-- Runs a `Get` against the `MissCacheFn` of the caller (`none` is the nil function). -/
def GetRun.exec {S : Type} : GetRun S → Option (S → Option GoError × S) → Outcome S
  | GetRun.ret err s, _ => Outcome.returned err s
  | GetRun.invoke s _, none => Outcome.nilCall s
  | GetRun.invoke s k, some fn => GetRun.exec (k (fn s).1 (fn s).2) (some fn)

/-- Runs a `Get` against the closure `checkFn` of `multiCaches.Get`
(`isFound = false; return nil`), from the given value of `isFound`. -/
def GetRun.probe {S : Type} : GetRun S → Bool → (Option GoError × Bool) × S
  | GetRun.ret err s, isFound => ((err, isFound), s)
  | GetRun.invoke s k, _ => GetRun.probe (k none s) false

/-- The interface `Cache` of cache.go over the state `S`, with `D` the values handed to `Set`
and `P` the pointers handed to `Get`.  `Get` is told whether `fn` is nil. -/
structure Cache (S D P : Type) where
  Set : String → D → Int → S → Option GoError × S
  Get : String → P → (fnIsNil : Bool) → S → GetRun S
  Delete : String → S → (Bool × Option GoError) × S
  IsExist : String → S → (Bool × Option GoError) × S
  Flush : S → (Int × Option GoError) × S
  IsReady : S → Bool × S
  IsEnable : S → Bool × S
  Close : S → Option GoError × S

/-- The function `MakeKey` of cache.go: `strings.Join(parts, ":")`. -/
def MakeKey (parts : List String) : String := ":".intercalate parts

end cache

open cache

namespace multiCaches

variable {S D P : Type}

/-- The method `multiCaches.Set`. -/
def Set : List (Cache S D P) → String → D → Int → S → Option GoError × S
  | [], _, _, _, s => (none, s)
  | c :: cs, key, data, ttl, s =>
    match c.Set key data ttl s with
    | (some err, s1) => (some err, s1)
    | (none, s1) => Set cs key data ttl s1

/-- The method `multiCaches.Get`. -/
def Get : List (Cache S D P) → String → P → Bool → S → GetRun S
  | [], _, _, fnIsNil, s =>
    if fnIsNil then GetRun.ret none s else GetRun.invoke s (fun r t => GetRun.ret r t)
  | c :: cs, key, ptr, fnIsNil, s =>
    match (c.Get key ptr false s).probe true with
    | ((some err, _), s1) => GetRun.ret (some err) s1
    | ((none, true), s1) => GetRun.ret none s1
    | ((none, false), s1) => Get cs key ptr fnIsNil s1

/-- The loop of `multiCaches.Delete`, from the current value of `ok`. -/
def DeleteLoop : List (Cache S D P) → String → Bool → S → (Bool × Option GoError) × S
  | [], _, ok, s => ((ok, none), s)
  | c :: cs, key, ok, s =>
    match c.Delete key s with
    | ((_ok, some err), s1) => ((ok || _ok, some err), s1)
    | ((_ok, none), s1) => DeleteLoop cs key (ok || _ok) s1

/-- The method `multiCaches.Delete`. -/
def Delete (caches : List (Cache S D P)) (key : String) (s : S) : (Bool × Option GoError) × S :=
  DeleteLoop caches key false s

/-- The method `multiCaches.IsExist`. -/
def IsExist : List (Cache S D P) → String → S → (Bool × Option GoError) × S
  | [], _, s => ((false, none), s)
  | c :: cs, key, s =>
    match c.IsExist key s with
    | ((ok, err), s1) => if ok || err.isSome then ((ok, err), s1) else IsExist cs key s1

/-- The loop of `multiCaches.Flush`, from the current value of `count`.  The source assigns
`count = +_count`, where `+` is the unary plus of Go (the identity on `int`). -/
def FlushLoop : List (Cache S D P) → Int → S → (Int × Option GoError) × S
  | [], count, s => ((count, none), s)
  | c :: cs, count, s =>
    match c.Flush s with
    | ((_, some err), s1) => ((count, some err), s1)
    | ((_count, none), s1) => FlushLoop cs _count s1

/-- The method `multiCaches.Flush`. -/
def Flush (caches : List (Cache S D P)) (s : S) : (Int × Option GoError) × S :=
  FlushLoop caches 0 s

/-- The method `multiCaches.IsReady`. -/
def IsReady : List (Cache S D P) → S → Bool × S
  | [], s => (true, s)
  | c :: cs, s =>
    match c.IsReady s with
    | (false, s1) => (false, s1)
    | (true, s1) => IsReady cs s1

/-- The method `multiCaches.IsEnable`. -/
def IsEnable : List (Cache S D P) → S → Bool × S
  | [], s => (false, s)
  | c :: cs, s =>
    match c.IsEnable s with
    | (true, s1) => (true, s1)
    | (false, s1) => IsEnable cs s1

/-- The loop of `multiCaches.Close`, from the current value of `errS`. -/
def CloseLoop : List (Cache S D P) → List String → S → List String × S
  | [], errS, s => (errS, s)
  | c :: cs, errS, s =>
    match c.Close s with
    | (some err, s1) => CloseLoop cs (errS ++ [err.Error]) s1
    | (none, s1) => CloseLoop cs errS s1

/-- The method `multiCaches.Close`. -/
def Close (caches : List (Cache S D P)) (s : S) : Option GoError × S :=
  match CloseLoop caches [] s with
  | (errS, s1) =>
    if errS.length = 0 then (none, s1)
    else (some (Errorf ("errors: " ++ ", ".intercalate errS)), s1)

/-- The constructor `New` of package multi: the composite is itself a `Cache`. -/
def New (caches : List (Cache S D P)) : Cache S D P where
  Set := Set caches
  Get := Get caches
  Delete := Delete caches
  IsExist := IsExist caches
  Flush := Flush caches
  IsReady := IsReady caches
  IsEnable := IsEnable caches
  Close := Close caches

end multiCaches

/-! ## The backends -/

/-- A codec used by a backend: `encode` turns a value into a payload of type `B` (with the
error the encoder returned), `decode` reads a payload into the variable behind `ptr`. -/
structure Codec (S D P B : Type) where
  encode : D → B × Option GoError
  decode : B → P → S → Option GoError × S

namespace freecache

/-- The methods of `*freecache.Cache` (an external library) that package local calls, as
operations on the state.  Keys are the bytes of a Go string. -/
structure Cache (S B : Type) where
  Set : String → B → Int → S → Option GoError × S
  Get : String → S → (B × Option GoError) × S
  Del : String → S → Bool × S
  EntryCount : S → Int × S
  Clear : S → S
  ResetStatistics : S → S

end freecache

/-- Modelled from the spec: the type `Config` of package local, whose file is not part of the
sources (an enabled flag, a maximum byte capacity and a default TTL). -/
structure localConfig where
  Enable : Bool
  Size : Int
  DefaultTTL : Int

/-- The struct `localCache`; `gob` stands for the package-level `encode` and `decode`, which
call `encoding/gob`. -/
structure localCache (S D P B : Type) where
  cacheEngine : freecache.Cache S B
  cf : localConfig
  gob : Codec S D P B

namespace localCache

variable {S D P B : Type}

/-- The method `localCache.IsEnable`. -/
def IsEnable (c : localCache S D P B) (s : S) : Bool × S := (c.cf.Enable, s)

/-- The method `localCache.Set`. -/
def Set (c : localCache S D P B) (key : String) (data : D) (ttl : Int) (s : S) :
    Option GoError × S :=
  if !(c.IsEnable s).1 then (none, s)
  else
    match c.gob.encode data with
    | (_, some err) => (some err, s)
    | (b, none) => c.cacheEngine.Set key b (if ttl < 0 then c.cf.DefaultTTL else ttl) s

/-- The method `localCache.Get`. -/
def Get (c : localCache S D P B) (key : String) (ptr : P) (fnIsNil : Bool) (s : S) : GetRun S :=
  if !(c.IsEnable s).1 then GetRun.invoke s (fun r t => GetRun.ret r t)
  else
    match c.cacheEngine.Get key s with
    | ((_, some _), s1) =>
      if fnIsNil then GetRun.ret none s1 else GetRun.invoke s1 (fun r t => GetRun.ret r t)
    | ((v, none), s1) =>
      match c.gob.decode v ptr s1 with
      | (some err, s2) => GetRun.ret (some err) s2
      | (none, s2) => GetRun.ret none s2

/-- The method `localCache.Delete`. -/
def Delete (c : localCache S D P B) (key : String) (s : S) : (Bool × Option GoError) × S :=
  if !(c.IsEnable s).1 then ((false, none), s)
  else (((c.cacheEngine.Del key s).1, none), (c.cacheEngine.Del key s).2)

/-- The method `localCache.IsExist`. -/
def IsExist (c : localCache S D P B) (key : String) (s : S) : (Bool × Option GoError) × S :=
  if !(c.IsEnable s).1 then ((false, none), s)
  else
    match c.cacheEngine.Get key s with
    | ((_, some _), s1) => ((false, none), s1)
    | ((_, none), s1) => ((true, none), s1)

/-- The method `localCache.Flush`. -/
def Flush (c : localCache S D P B) (s : S) : (Int × Option GoError) × S :=
  if !(c.IsEnable s).1 then ((0, none), s)
  else
    (((c.cacheEngine.EntryCount s).1, none),
      c.cacheEngine.ResetStatistics (c.cacheEngine.Clear (c.cacheEngine.EntryCount s).2))

/-- The method `localCache.IsReady`. -/
def IsReady (_c : localCache S D P B) (s : S) : Bool × S := (true, s)

/-- The method `localCache.Close`. -/
def Close (_c : localCache S D P B) (s : S) : Option GoError × S := (none, s)

/-- The constructor `New` of package local, as a `cache.Cache`; `cacheEngine` is the engine
that `freecache.NewCache(cf.Size)` returned. -/
def New (cacheEngine : freecache.Cache S B) (gob : Codec S D P B) (cf : localConfig) :
    cache.Cache S D P where
  Set := Set ⟨cacheEngine, cf, gob⟩
  Get := Get ⟨cacheEngine, cf, gob⟩
  Delete := Delete ⟨cacheEngine, cf, gob⟩
  IsExist := IsExist ⟨cacheEngine, cf, gob⟩
  Flush := Flush ⟨cacheEngine, cf, gob⟩
  IsReady := IsReady ⟨cacheEngine, cf, gob⟩
  IsEnable := IsEnable ⟨cacheEngine, cf, gob⟩
  Close := Close ⟨cacheEngine, cf, gob⟩

end localCache

namespace redisv8

/-- The methods of `*redis.Client` (go-redis v8, an external library) that package redis
calls, each with its `Result()` or `Err()`; the expiration of `Set` is a `time.Duration`,
a number of nanoseconds. -/
structure Client (S B : Type) where
  Set : String → B → Int → S → Option GoError × S
  Get : String → S → (B × Option GoError) × S
  Del : String → S → (Int × Option GoError) × S
  Exists : String → S → (Int × Option GoError) × S
  Ping : S → Option GoError × S
  Close : S → Option GoError × S

end redisv8

/-- The type `Config` of package redis. -/
structure redisConfig where
  Enable : Bool
  Endpoint : String
  Timeout : Int
  DefaultTTL : Int

/-- A Go `int64` product: the mathematical result wrapped to 64 bits, two's complement. -/
def wrapInt64 (x : Int) : Int := (x + 2 ^ 63) % 2 ^ 64 - 2 ^ 63

/-- The constant `time.Second`, in nanoseconds. -/
def timeSecond : Int := 1000000000

/-- The call `strings.TrimRight(s, ":")`. -/
def trimRightColons (s : String) : String :=
  String.mk (s.data.reverse.dropWhile (fun ch => ch == ':')).reverse

/-- The struct `redisCache`; `json` stands for `json.Marshal` and `json.Unmarshal`. -/
structure redisCache (S D P B : Type) where
  cacheEngine : redisv8.Client S B
  cf : redisConfig
  keyPrefix : String
  json : Codec S D P B

namespace redisCache

variable {S D P B : Type}

/-- The method `redisCache.IsEnable`. -/
def IsEnable (c : redisCache S D P B) (s : S) : Bool × S := (c.cf.Enable, s)

/-- The method `redisCache.getKey`. -/
def getKey (c : redisCache S D P B) (key : String) : String :=
  if c.keyPrefix = "" then key else c.keyPrefix ++ ":" ++ key

/-- The method `redisCache.Set`. -/
def Set (c : redisCache S D P B) (key : String) (data : D) (ttl : Int) (s : S) :
    Option GoError × S :=
  if !(c.IsEnable s).1 then (none, s)
  else
    match c.json.encode data with
    | (_, some err) => (some err, s)
    | (b, none) =>
      c.cacheEngine.Set (c.getKey key) b
        (wrapInt64 ((if ttl < 0 then c.cf.DefaultTTL else ttl) * timeSecond)) s

/-- The method `redisCache.Get`. -/
def Get (c : redisCache S D P B) (key : String) (ptr : P) (fnIsNil : Bool) (s : S) : GetRun S :=
  if !(c.IsEnable s).1 then GetRun.invoke s (fun r t => GetRun.ret r t)
  else
    match c.cacheEngine.Get (c.getKey key) s with
    | ((_, some _), s1) =>
      if fnIsNil then GetRun.ret none s1 else GetRun.invoke s1 (fun r t => GetRun.ret r t)
    | ((v, none), s1) =>
      match c.json.decode v ptr s1 with
      | (some err, s2) => GetRun.ret (some err) s2
      | (none, s2) => GetRun.ret none s2

/-- The method `redisCache.Delete`. -/
def Delete (c : redisCache S D P B) (key : String) (s : S) : (Bool × Option GoError) × S :=
  if !(c.IsEnable s).1 then ((false, none), s)
  else
    match c.cacheEngine.Del (c.getKey key) s with
    | ((count, err), s1) => ((decide (count > 0), err), s1)

/-- The method `redisCache.IsExist`. -/
def IsExist (c : redisCache S D P B) (key : String) (s : S) : (Bool × Option GoError) × S :=
  if !(c.IsEnable s).1 then ((false, none), s)
  else
    match c.cacheEngine.Exists (c.getKey key) s with
    | ((count, err), s1) => ((decide (count > 0), err), s1)

/-- The method `redisCache.Flush`. -/
def Flush (_c : redisCache S D P B) (s : S) : (Int × Option GoError) × S :=
  ((0, some NotSupportedErr), s)

/-- The method `redisCache.IsReady`. -/
def IsReady (c : redisCache S D P B) (s : S) : Bool × S :=
  if !(c.IsEnable s).1 then (true, s)
  else
    match c.cacheEngine.Ping s with
    | (some _, s1) => (false, s1)
    | (none, s1) => (true, s1)

/-- The method `redisCache.Close`. -/
def Close (c : redisCache S D P B) (s : S) : Option GoError × S :=
  if !(c.IsEnable s).1 then (none, s) else c.cacheEngine.Close s

/-- The constructor `New` of package redis, as a `cache.Cache`; `cacheEngine` is the client
that `redisv8.NewClient` returned for the endpoint and timeouts of `cf`. -/
def New (cacheEngine : redisv8.Client S B) (json : Codec S D P B) (cf : redisConfig)
    (keyPrefix : String) : cache.Cache S D P where
  Set := Set ⟨cacheEngine, cf, trimRightColons keyPrefix, json⟩
  Get := Get ⟨cacheEngine, cf, trimRightColons keyPrefix, json⟩
  Delete := Delete ⟨cacheEngine, cf, trimRightColons keyPrefix, json⟩
  IsExist := IsExist ⟨cacheEngine, cf, trimRightColons keyPrefix, json⟩
  Flush := Flush ⟨cacheEngine, cf, trimRightColons keyPrefix, json⟩
  IsReady := IsReady ⟨cacheEngine, cf, trimRightColons keyPrefix, json⟩
  IsEnable := IsEnable ⟨cacheEngine, cf, trimRightColons keyPrefix, json⟩
  Close := Close ⟨cacheEngine, cf, trimRightColons keyPrefix, json⟩

end redisCache

/-! ## The expiry of the in-process store -/

namespace freecache

/-- The store of the library freecache as far as expiry goes: the entries, each with the
second at which it expires (0 for never), and the clock of the store; both are `uint32`
numbers of seconds in the library. -/
structure Store (B : Type) where
  entries : List (String × B × Nat)
  now : Nat
deriving DecidableEq, Repr

/-- The conversion `uint32(x)` of a Go `int`. -/
def uint32 (x : Int) : Nat := (x % 4294967296).toNat

/-- The expiry that `Set` of freecache records: `now + uint32(expireSeconds)`, in `uint32`,
when `expireSeconds > 0`, and 0 otherwise. -/
def expireAt (now : Nat) (expireSeconds : Int) : Nat :=
  if expireSeconds > 0 then (now + uint32 expireSeconds) % 4294967296 else 0

/-- The test `isExpired` of freecache: `keyExpireAt != 0 && keyExpireAt <= now`. -/
def isExpired (keyExpireAt now : Nat) : Bool := keyExpireAt != 0 && decide (keyExpireAt ≤ now)

/-- The error `ErrNotFound` of freecache. -/
def ErrNotFound : GoError := Errorf "Entry not found"

/-- The methods of freecache over such a store, next to a memory `M` of the caller that they
leave alone; `noValue` is the nil slice that `Get` returns with an error. An entry that is
found expired is removed. -/
def timed {B M : Type} (noValue : B) : freecache.Cache (Store B × M) B where
  Set key b expireSeconds s :=
    (none,
      ({ s.1 with
          entries := (key, b, expireAt s.1.now expireSeconds) ::
            s.1.entries.filter (fun e => e.1 != key) },
        s.2))
  Get key s :=
    match s.1.entries.find? (fun e => e.1 == key) with
    | some e =>
      if isExpired e.2.2 s.1.now then
        ((noValue, some ErrNotFound),
          ({ s.1 with entries := s.1.entries.filter (fun e => e.1 != key) }, s.2))
      else ((e.2.1, none), s)
    | none => ((noValue, some ErrNotFound), s)
  Del key s :=
    (s.1.entries.any (fun e => e.1 == key),
      ({ s.1 with entries := s.1.entries.filter (fun e => e.1 != key) }, s.2))
  EntryCount s := ((s.1.entries.length : Int), s)
  Clear s := ({ s.1 with entries := [] }, s.2)
  ResetStatistics s := s

/-- The state after `d` seconds have passed on the clock of the store. -/
def tick {B M : Type} (d : Nat) (s : Store B × M) : Store B × M :=
  ({ s.1 with now := (s.1.now + d) % 4294967296 }, s.2)

end freecache

/-! ## Running a `Get` against a non-nil loader, and the TTL policy -/

namespace cache

/-- Runs a `Get` against a non-nil `MissCacheFn` to the end: the error returned and the
state. -/
def GetRun.run {S : Type} : GetRun S → (S → Option GoError × S) → Option GoError × S
  | GetRun.ret err s, _ => (err, s)
  | GetRun.invoke s k, fn => GetRun.run (k (fn s).1 (fn s).2) fn

/-- The TTL policy in the words of the contract, as the number of seconds handed to the
store: the configured default when `ttl` is negative, `0` (which both stores read as
no expiry) when `ttl` is zero, and `ttl` itself when it is positive. -/
def ttlPolicy (DefaultTTL ttl : Int) : Int :=
  if ttl < 0 then DefaultTTL else if ttl = 0 then 0 else ttl

end cache

/-! ## The keyed load-once cache of package id -/

/-- A Go `string` variable owned by the caller, as the state sees it: its address (what is
handed to `Get` as `ptr`), its value in a state, and an assignment to it. -/
structure StringVar (S P : Type) where
  addr : P
  read : S → String
  write : String → S → S

/-- The struct `idCache`; `namespace_` is its field `namespace`, and a nil `loadFn` is
`none`. -/
structure idCache (S D P : Type) where
  cache : Cache S D P
  namespace_ : String
  loadFn : Option (String → S → (String × Option GoError) × S)

namespace idCache

variable {S D P : Type}

/-- The constant `defaultTTL` of package id. -/
def defaultTTL : Int := 24 * 3600

/-- The constructor `New` of package id. -/
def New (cache : Cache S D P) (namespace_ : String) : idCache S D P :=
  ⟨cache, namespace_, none⟩

/-- The method `idCache.SetLoadFn`. -/
def SetLoadFn (c : idCache S D P) (loadFn : Option (String → S → (String × Option GoError) × S)) :
    idCache S D P :=
  { c with loadFn := loadFn }

/-- The closure that `idCache.GetOrSet` hands to `Get`; `id` is the named result `id` of
`GetOrSet` and `box` turns a Go `string` into the `interface{}` handed to `Set`. -/
def loadClosure (c : idCache S D P) (id : StringVar S P) (box : String → D) (name : String)
    (s : S) : Option GoError × S :=
  match c.loadFn with
  | none => (some (Errorf "missing loadFn"), s)
  | some loadFn =>
    match loadFn name s with
    | ((v, some err), s1) => (some err, id.write v s1)
    | ((v, none), s1) =>
      c.cache.Set (MakeKey [c.namespace_, name]) (box v) defaultTTL (id.write v s1)

/-- The method `idCache.GetOrSet`: the named result `id` starts as the empty string, `Get`
is handed its address and the closure, and the method returns `id` and the error of `Get`. -/
def GetOrSet (c : idCache S D P) (id : StringVar S P) (box : String → D) (name : String)
    (s : S) : (String × Option GoError) × S :=
  match (c.cache.Get (MakeKey [c.namespace_, name]) id.addr false (id.write "" s)).run
      (loadClosure c id box name) with
  | (err, s1) => ((id.read s1, err), s1)

/-- The method `idCache.IsExist`. -/
def IsExist (c : idCache S D P) (name : String) (s : S) : (Bool × Option GoError) × S :=
  c.cache.IsExist (MakeKey [c.namespace_, name]) s

/-- The method `idCache.Delete`. -/
def Delete (c : idCache S D P) (name : String) (s : S) : Option GoError × S :=
  ((c.cache.Delete (MakeKey [c.namespace_, name]) s).1.2,
    (c.cache.Delete (MakeKey [c.namespace_, name]) s).2)

end idCache

/-! ## The characters of a composed key -/

namespace cache

/-- The characters that `MakeKey` writes after the first segment: every further segment
preceded by the separator. -/
def tailChars : List String → List Char
  | [] => []
  | y :: ys => ':' :: (y.data ++ tailChars ys)

end cache

/-! ## Properties of a backend, in the words of the contract -/

namespace contract

variable {S D P : Type}

/-- A backend that is inert: in every state and for all arguments, `Set` returns nil,
`Delete` and `IsExist` return `(false, nil)`, `IsReady` returns true, `Get` with a non-nil
loader invokes the loader once in the state it was called in and returns what the loader
returned (so it wrote nothing before the loader ran and nothing after), and `Set`, `Delete`,
`IsExist` and `IsReady` leave the state as it was. -/
def Inert (c : Cache S D P) : Prop :=
  ∀ (key : String) (data : D) (ttl : Int) (ptr : P) (s : S),
    c.Set key data ttl s = (none, s) ∧
    c.Delete key s = ((false, none), s) ∧
    c.IsExist key s = ((false, none), s) ∧
    c.IsReady s = (true, s) ∧
    c.Get key ptr false s = GetRun.invoke s (fun r t => GetRun.ret r t) ∧
    ∀ L : S → Option GoError × S,
      (c.Get key ptr false s).exec (some L) = Outcome.returned (L s).1 (L s).2

end contract

namespace trace

variable {S D P : Type}

/-- One call received by a tier, with the position of the tier and the arguments. -/
inductive Call (D P : Type) where
  | Set (tier : Nat) (key : String) (data : D) (ttl : Int) : Call D P
  | Get (tier : Nat) (key : String) (ptr : P) (fnIsNil : Bool) : Call D P
  | Delete (tier : Nat) (key : String) : Call D P
  | IsExist (tier : Nat) (key : String) : Call D P
  | Flush (tier : Nat) : Call D P
  | IsReady (tier : Nat) : Call D P
  | IsEnable (tier : Nat) : Call D P
  | Close (tier : Nat) : Call D P

/-- A `Get` over the state `S`, carried over to the state with a call log next to it. -/
def logged {L : Type} : GetRun S → List L → GetRun (S × List L)
  | GetRun.ret err s, log => GetRun.ret err (s, log)
  | GetRun.invoke s k, log => GetRun.invoke (s, log) (fun r t => logged (k r t.1) t.2)

/-- The tier `c` observed: it behaves as `c` and appends every call it receives to the log. -/
def traced (tier : Nat) (c : Cache S D P) : Cache (S × List (Call D P)) D P where
  Set key data ttl t :=
    ((c.Set key data ttl t.1).1, ((c.Set key data ttl t.1).2, t.2 ++ [Call.Set tier key data ttl]))
  Get key ptr fnIsNil t :=
    logged (c.Get key ptr fnIsNil t.1) (t.2 ++ [Call.Get tier key ptr fnIsNil])
  Delete key t := ((c.Delete key t.1).1, ((c.Delete key t.1).2, t.2 ++ [Call.Delete tier key]))
  IsExist key t := ((c.IsExist key t.1).1, ((c.IsExist key t.1).2, t.2 ++ [Call.IsExist tier key]))
  Flush t := ((c.Flush t.1).1, ((c.Flush t.1).2, t.2 ++ [Call.Flush tier]))
  IsReady t := ((c.IsReady t.1).1, ((c.IsReady t.1).2, t.2 ++ [Call.IsReady tier]))
  IsEnable t := ((c.IsEnable t.1).1, ((c.IsEnable t.1).2, t.2 ++ [Call.IsEnable tier]))
  Close t := ((c.Close t.1).1, ((c.Close t.1).2, t.2 ++ [Call.Close tier]))

/-- The tiers of a list observed, numbered from `n` in list order. -/
def tracedFrom : Nat → List (Cache S D P) → List (Cache (S × List (Call D P)) D P)
  | _, [] => []
  | n, c :: cs => traced n c :: tracedFrom (n + 1) cs

/-- The call that the loop of `multiCaches.Get` makes on one tier: `Get` with the closure
`checkFn`, giving the error, the value of `isFound` after the call, and the state. -/
def probeGet (key : String) (ptr : P) (c : Cache S D P) (s : S) : (Option GoError × Bool) × S :=
  (c.Get key ptr false s).probe true

/-- A string variable of the caller, seen in the state with a call log next to it. -/
def observedVar {L : Type} (id : StringVar S P) : StringVar (S × List L) P where
  addr := id.addr
  read t := id.read t.1
  write v t := (id.write v t.1, t.2)

/-- A resolver of the load-once cache, seen in the state with a call log next to it. -/
def observedLoad {L : Type} (loadFn : String → S → (String × Option GoError) × S)
    (name : String) (t : S × List L) : (String × Option GoError) × (S × List L) :=
  ((loadFn name t.1).1, ((loadFn name t.1).2, t.2))

/-- The nested composite over observed leaf tiers: the tiers `xs`, then a composite of the
tiers `ys`, then the tiers `zs`; the leaves are numbered in the order `xs`, `ys`, `zs`, and the
inner composite is not a leaf. -/
def nestedTiers (xs ys zs : List (Cache S D P)) : List (Cache (S × List (Call D P)) D P) :=
  tracedFrom 0 xs ++
    multiCaches.New (tracedFrom xs.length ys) :: tracedFrom (xs.length + ys.length) zs

/-- The flat composite over the same observed leaf tiers, numbered the same way. -/
def flatTiers (xs ys zs : List (Cache S D P)) : List (Cache (S × List (Call D P)) D P) :=
  tracedFrom 0 (xs ++ ys ++ zs)

/-- The operation `op` called on every tier of the list, in list order, whatever each call
returns: the results of the calls and the state after the last one. -/
def callAll {C R : Type} (op : C → S → R × S) : List C → S → List R × S
  | [], s => ([], s)
  | c :: cs, s => ((op c s).1 :: (callAll op cs (op c s).2).1, (callAll op cs (op c s).2).2)

end trace

/-! ## A concrete state, used to run the definitions on examples -/

namespace demo

/-- The values the examples store: Go `int`s and `string`s. -/
inductive Val where
  | int (n : Int) : Val
  | str (t : String) : Val
deriving DecidableEq, Repr

/-- The pointers the examples hand to `Get`: nil, `&cacheInt` or `&cacheString`. -/
inductive Ptr where
  | null : Ptr
  | cacheInt : Ptr
  | cacheString : Ptr
deriving DecidableEq, Repr

/-- The state of the examples: the entries of every store (by slot, most recent first), the
two variables of the caller, and the number of times the caller's loader ran. -/
structure World where
  stores : List (List (String × Val))
  cacheInt : Int
  cacheString : String
  loads : Nat
deriving DecidableEq, Repr

/-- The entries of the store in a slot. -/
def entries (w : World) (slot : Nat) : List (String × Val) := w.stores.getD slot []

/-- The state with the entries of a slot replaced. -/
def setEntries (w : World) (slot : Nat) (es : List (String × Val)) : World :=
  { w with stores := w.stores.set slot es }

/-- A store that keeps every entry for ever, seen through the methods of freecache. -/
def engine (slot : Nat) : freecache.Cache World Val where
  Set key b _ w := (none, setEntries w slot ((key, b) :: (entries w slot).filter (fun e => e.1 != key)))
  Get key w :=
    match (entries w slot).lookup key with
    | some v => ((v, none), w)
    | none => ((Val.str "", some (Errorf "Entry not found")), w)
  Del key w :=
    ((entries w slot).any (fun e => e.1 == key),
      setEntries w slot ((entries w slot).filter (fun e => e.1 != key)))
  EntryCount w := (((entries w slot).length : Int), w)
  Clear w := setEntries w slot []
  ResetStatistics w := w

/-- The same store seen through the methods of the go-redis client; `Close` fails with the
given text when one is given. -/
def client (slot : Nat) (closeErr : Option String) : redisv8.Client World Val where
  Set key b _ w := (none, setEntries w slot ((key, b) :: (entries w slot).filter (fun e => e.1 != key)))
  Get key w :=
    match (entries w slot).lookup key with
    | some v => ((v, none), w)
    | none => ((Val.str "", some (Errorf "redis: nil")), w)
  Del key w :=
    ((if (entries w slot).any (fun e => e.1 == key) then 1 else 0, none),
      setEntries w slot ((entries w slot).filter (fun e => e.1 != key)))
  Exists key w := ((if (entries w slot).any (fun e => e.1 == key) then 1 else 0, none), w)
  Ping w := (none, w)
  Close w := (closeErr.map Errorf, w)

/-- A codec that stores the value itself and refuses to decode it into a variable of
another type. -/
def codec : Codec World Val Ptr Val where
  encode v := (v, none)
  decode b ptr w :=
    match b, ptr with
    | Val.int n, Ptr.cacheInt => (none, { w with cacheInt := n })
    | Val.str t, Ptr.cacheString => (none, { w with cacheString := t })
    | _, _ => (some (Errorf "type mismatch"), w)

/-- An in-process backend over the store of a slot. -/
def localTier (slot : Nat) (enable : Bool) : cache.Cache World Val Ptr :=
  localCache.New (engine slot) codec ⟨enable, 1000000, 0⟩

/-- A remote backend over the store of a slot. -/
def redisTier (slot : Nat) (enable : Bool) (closeErr : Option String) : cache.Cache World Val Ptr :=
  redisCache.New (client slot closeErr) codec ⟨enable, "localhost:6379", 0, 0⟩ "test"

/-- A tier whose every call fails with the given text (an unreachable backend). -/
def failingTier (text : String) : cache.Cache World Val Ptr where
  Set _ _ _ w := (some (Errorf text), w)
  Get _ _ _ w := GetRun.ret (some (Errorf text)) w
  Delete _ w := ((false, some (Errorf text)), w)
  IsExist _ w := ((false, some (Errorf text)), w)
  Flush w := ((0, some (Errorf text)), w)
  IsReady w := (false, w)
  IsEnable w := (true, w)
  Close w := (some (Errorf text), w)

/-- The loader `missCacheFn` of the test suite, counting its runs. -/
def missCacheFn (w : World) : Option GoError × World :=
  (some (Errorf "missing cache hit"), { w with loads := w.loads + 1 })

/-- Three stores, the third of which holds `1` under the key `test:set`. -/
def world0 : World := ⟨[[], [], [("test:set", Val.int 1)]], 0, "", 0⟩

/-- Four stores, the third and the fourth of which hold an entry under the key `test:set`. -/
def world1 : World :=
  ⟨[[], [], [("test:set", Val.int 1)], [("test:set", Val.int 1)]], 0, "", 0⟩

/-- Two stores, holding one entry and two entries. -/
def world2 : World :=
  ⟨[[("a", Val.int 1)], [("b", Val.int 2), ("c", Val.int 3)]], 0, "", 0⟩

/-- The tiers of `TestCacheImplement`: a disabled in-process backend, a disabled remote
backend and an enabled in-process backend. -/
def testTiers : List (cache.Cache World Val Ptr) :=
  [localTier 0 false, redisTier 1 false none, localTier 2 true]

/-- The variable `cacheString` of the examples, as a string variable of the caller. -/
def idVar : StringVar World Ptr where
  addr := Ptr.cacheString
  read w := w.cacheString
  write v w := { w with cacheString := v }

/-- The resolver of `TestNew`: the identifier of a name is the name. -/
def loadName (name : String) (w : World) : (String × Option GoError) × World :=
  ((name, none), { w with loads := w.loads + 1 })

/-- A remote client whose server is unreachable: every call fails. -/
def downClient : redisv8.Client World Val where
  Set _ _ _ w := (some (Errorf "dial tcp: connection refused"), w)
  Get _ w := ((Val.str "", some (Errorf "dial tcp: connection refused")), w)
  Del _ w := ((0, some (Errorf "dial tcp: connection refused")), w)
  Exists _ w := ((0, some (Errorf "dial tcp: connection refused")), w)
  Ping w := (some (Errorf "dial tcp: connection refused"), w)
  Close w := (none, w)

/-- A freecache engine that only records the expiry of every `Set` it receives. -/
def ttlEngine : freecache.Cache (List Int) Val where
  Set _ _ expire l := (none, l ++ [expire])
  Get _ l := ((Val.str "", some (Errorf "Entry not found")), l)
  Del _ l := (false, l)
  EntryCount l := (0, l)
  Clear l := l
  ResetStatistics l := l

/-- A remote client that only records the expiration of every `Set` it receives. -/
def ttlClient : redisv8.Client (List Int) Val where
  Set _ _ expiration l := (none, l ++ [expiration])
  Get _ l := ((Val.str "", some (Errorf "redis: nil")), l)
  Del _ l := ((0, none), l)
  Exists _ l := ((0, none), l)
  Ping l := (none, l)
  Close l := (none, l)

/-- A codec over the recording stores: the payload is the value, decoding writes nothing. -/
def ttlCodec : Codec (List Int) Val Ptr Val where
  encode v := (v, none)
  decode _ _ l := (none, l)

/-- The state after `GetOrSet("abc")` of `TestNew` from `world0`, with the first store as
the cache: the identifier is stored under the namespaced key, the variable holds it, and the
resolver ran once. -/
def world3 : World :=
  ⟨[[("test-id-cache:abc", Val.str "abc")], [], [("test:set", Val.int 1)]], 0, "abc", 1⟩

/-- The codec of the examples over a state made of a freecache store and the variables of
the caller. -/
def timedCodec : Codec (freecache.Store Val × World) Val Ptr Val where
  encode v := (v, none)
  decode b ptr s := ((codec.decode b ptr s.2).1, (s.1, (codec.decode b ptr s.2).2))

/-- The loader `missCacheFn` of the test suite over that state. -/
def timedMissCacheFn (s : freecache.Store Val × World) :
    Option GoError × (freecache.Store Val × World) :=
  ((missCacheFn s.2).1, (s.1, (missCacheFn s.2).2))

/-- An empty freecache store whose clock reads 1790000000, and the variables of `world0`. -/
def timedWorld : freecache.Store Val × World := (⟨[], 1790000000⟩, world0)

end demo

open trace

/-! ## Theorems -/

section composite

variable {S D P : Type}

theorem callAll_append {C R : Type} (op : C → S → R × S) (xs ys : List C) (s : S) :
    callAll op (xs ++ ys) s =
      ((callAll op xs s).1 ++ (callAll op ys (callAll op xs s).2).1,
        (callAll op ys (callAll op xs s).2).2) := by
  induction xs generalizing s with
  | nil => simp [callAll]
  | cons x xs ih => simp [callAll, ih]

theorem tracedFrom_append (n : Nat) (xs ys : List (Cache S D P)) :
    tracedFrom n (xs ++ ys) = tracedFrom n xs ++ tracedFrom (n + xs.length) ys := by
  induction xs generalizing n with
  | nil => simp [tracedFrom]
  | cons x xs ih => simp [tracedFrom, ih, Nat.add_assoc, Nat.add_comm 1]

theorem Set_traced_skip (key : String) (data : D) (ttl : Int) (pre rest : List (Cache S D P))
    (n : Nat) (s : S) (log : List (Call D P))
    (hok : ∀ r ∈ (callAll (fun c => c.Set key data ttl) pre s).1, r = none) :
    multiCaches.Set (tracedFrom n (pre ++ rest)) key data ttl (s, log) =
      multiCaches.Set (tracedFrom (n + pre.length) rest) key data ttl
        ((callAll (fun c => c.Set key data ttl) pre s).2,
          log ++ (List.range' n pre.length).map (fun i => Call.Set i key data ttl)) := by
  induction pre generalizing n s log with
  | nil => simp [callAll]
  | cons c cs ih =>
    simp only [callAll, List.mem_cons, forall_eq_or_imp] at hok
    obtain ⟨h1, h2⟩ := hok
    rw [List.cons_append]
    simp only [tracedFrom, multiCaches.Set, traced, h1]
    rw [ih (n + 1) _ _ h2]
    simp [callAll, List.range'_succ, Nat.add_assoc, Nat.add_comm 1]

end composite

section compositeGet

variable {S D P : Type}

theorem probe_logged {L : Type} (r : GetRun S) (log : List L) (b : Bool) :
    (logged r log).probe b = ((r.probe b).1, ((r.probe b).2, log)) := by
  induction r generalizing log b with
  | ret err s => rfl
  | invoke s k ih => simp only [logged, GetRun.probe]; exact ih none s log false

theorem probeGet_traced (key : String) (ptr : P) (n : Nat) (c : Cache S D P) (s : S)
    (log : List (Call D P)) :
    ((traced n c).Get key ptr false (s, log)).probe true =
      ((probeGet key ptr c s).1, ((probeGet key ptr c s).2, log ++ [Call.Get n key ptr false])) := by
  simp only [traced, probeGet, probe_logged]

theorem Get_traced_skip (key : String) (ptr : P) (fnIsNil : Bool)
    (pre rest : List (Cache S D P)) (n : Nat) (s : S) (log : List (Call D P))
    (hmiss : ∀ r ∈ (callAll (probeGet key ptr) pre s).1, r = (none, false)) :
    multiCaches.Get (tracedFrom n (pre ++ rest)) key ptr fnIsNil (s, log) =
      multiCaches.Get (tracedFrom (n + pre.length) rest) key ptr fnIsNil
        ((callAll (probeGet key ptr) pre s).2,
          log ++ (List.range' n pre.length).map (fun i => Call.Get i key ptr false)) := by
  induction pre generalizing n s log with
  | nil => simp [callAll]
  | cons c cs ih =>
    simp only [callAll, List.mem_cons, forall_eq_or_imp] at hmiss
    obtain ⟨h1, h2⟩ := hmiss
    rw [List.cons_append]
    simp only [tracedFrom, multiCaches.Get, probeGet_traced, h1]
    rw [ih (n + 1) _ _ h2]
    simp [callAll, List.range'_succ, Nat.add_assoc, Nat.add_comm 1]

end compositeGet

/-! ### Observing the tiers does not change what the composite computes -/

section observed

variable {S D P : Type}

theorem Set_traced_same (key : String) (data : D) (ttl : Int) (caches : List (Cache S D P))
    (n : Nat) (s : S) (log : List (Call D P)) :
    ∃ log1, multiCaches.Set (tracedFrom n caches) key data ttl (s, log) =
      ((multiCaches.Set caches key data ttl s).1,
        ((multiCaches.Set caches key data ttl s).2, log1)) := by
  induction caches generalizing n s log with
  | nil => exact ⟨log, rfl⟩
  | cons c cs ih =>
    simp only [tracedFrom, multiCaches.Set, traced]
    rcases hc : c.Set key data ttl s with ⟨e, s1⟩
    cases e with
    | none => exact ih (n + 1) s1 _
    | some e => exact ⟨_, rfl⟩

theorem Get_traced_same (key : String) (ptr : P) (fnIsNil : Bool) (caches : List (Cache S D P))
    (n : Nat) (s : S) (log : List (Call D P)) :
    ∃ log1, multiCaches.Get (tracedFrom n caches) key ptr fnIsNil (s, log) =
      logged (multiCaches.Get caches key ptr fnIsNil s) log1 := by
  induction caches generalizing n s log with
  | nil =>
    refine ⟨log, ?_⟩
    cases fnIsNil <;> rfl
  | cons c cs ih =>
    simp only [tracedFrom, multiCaches.Get, probeGet_traced, probeGet]
    rcases hc : (c.Get key ptr false s).probe true with ⟨⟨e, b⟩, s1⟩
    cases e with
    | some e => exact ⟨_, rfl⟩
    | none =>
      cases b with
      | true => exact ⟨_, rfl⟩
      | false => exact ih (n + 1) s1 _

theorem Delete_traced_same (key : String) (caches : List (Cache S D P))
    (n : Nat) (ok : Bool) (s : S) (log : List (Call D P)) :
    ∃ log1, multiCaches.DeleteLoop (tracedFrom n caches) key ok (s, log) =
      ((multiCaches.DeleteLoop caches key ok s).1,
        ((multiCaches.DeleteLoop caches key ok s).2, log1)) := by
  induction caches generalizing n ok s log with
  | nil => exact ⟨log, rfl⟩
  | cons c cs ih =>
    simp only [tracedFrom, multiCaches.DeleteLoop, traced]
    rcases hc : c.Delete key s with ⟨⟨b, e⟩, s1⟩
    cases e with
    | none => exact ih (n + 1) _ s1 _
    | some e => exact ⟨_, rfl⟩

theorem IsExist_traced_same (key : String) (caches : List (Cache S D P))
    (n : Nat) (s : S) (log : List (Call D P)) :
    ∃ log1, multiCaches.IsExist (tracedFrom n caches) key (s, log) =
      ((multiCaches.IsExist caches key s).1, ((multiCaches.IsExist caches key s).2, log1)) := by
  induction caches generalizing n s log with
  | nil => exact ⟨log, rfl⟩
  | cons c cs ih =>
    rcases hc : c.IsExist key s with ⟨⟨b, e⟩, s1⟩
    simp only [tracedFrom, multiCaches.IsExist, traced, hc]
    by_cases hstop : (b || e.isSome) = true
    · exact ⟨log ++ [Call.IsExist n key], by simp only [hstop, if_true]⟩
    · obtain ⟨log1, h1⟩ := ih (n + 1) s1 (log ++ [Call.IsExist n key])
      exact ⟨log1, by simp only [hstop, if_false, Bool.false_eq_true]; exact h1⟩

theorem Flush_traced_same (caches : List (Cache S D P))
    (n : Nat) (count : Int) (s : S) (log : List (Call D P)) :
    ∃ log1, multiCaches.FlushLoop (tracedFrom n caches) count (s, log) =
      ((multiCaches.FlushLoop caches count s).1,
        ((multiCaches.FlushLoop caches count s).2, log1)) := by
  induction caches generalizing n count s log with
  | nil => exact ⟨log, rfl⟩
  | cons c cs ih =>
    simp only [tracedFrom, multiCaches.FlushLoop, traced]
    rcases hc : c.Flush s with ⟨⟨k, e⟩, s1⟩
    cases e with
    | none => exact ih (n + 1) _ s1 _
    | some e => exact ⟨_, rfl⟩

theorem CloseLoop_traced_same (caches : List (Cache S D P))
    (n : Nat) (errS : List String) (s : S) (log : List (Call D P)) :
    ∃ log1, multiCaches.CloseLoop (tracedFrom n caches) errS (s, log) =
      ((multiCaches.CloseLoop caches errS s).1,
        ((multiCaches.CloseLoop caches errS s).2, log1)) := by
  induction caches generalizing n errS s log with
  | nil => exact ⟨log, rfl⟩
  | cons c cs ih =>
    simp only [tracedFrom, multiCaches.CloseLoop, traced]
    rcases hc : c.Close s with ⟨e, s1⟩
    cases e with
    | none => exact ih (n + 1) _ s1 _
    | some e => exact ih (n + 1) _ s1 _

/-- The composite over observed tiers returns what the composite over the tiers themselves
returns and leaves the same state, next to some call log: for `Set`, `Get` (as a run carrying
the log along), `Delete`, `IsExist`, `Flush` and `Close`. -/
theorem observed_composite_same (caches : List (Cache S D P)) (s : S) (log : List (Call D P)) :
    (∀ key data ttl, ∃ log1, (multiCaches.New (tracedFrom 0 caches)).Set key data ttl (s, log) =
      (((multiCaches.New caches).Set key data ttl s).1,
        (((multiCaches.New caches).Set key data ttl s).2, log1))) ∧
    (∀ key ptr fnIsNil, ∃ log1,
      (multiCaches.New (tracedFrom 0 caches)).Get key ptr fnIsNil (s, log) =
        logged ((multiCaches.New caches).Get key ptr fnIsNil s) log1) ∧
    (∀ key, ∃ log1, (multiCaches.New (tracedFrom 0 caches)).Delete key (s, log) =
      (((multiCaches.New caches).Delete key s).1,
        (((multiCaches.New caches).Delete key s).2, log1))) ∧
    (∀ key, ∃ log1, (multiCaches.New (tracedFrom 0 caches)).IsExist key (s, log) =
      (((multiCaches.New caches).IsExist key s).1,
        (((multiCaches.New caches).IsExist key s).2, log1))) ∧
    (∃ log1, (multiCaches.New (tracedFrom 0 caches)).Flush (s, log) =
      (((multiCaches.New caches).Flush s).1, (((multiCaches.New caches).Flush s).2, log1))) ∧
    (∃ log1, (multiCaches.New (tracedFrom 0 caches)).Close (s, log) =
      (((multiCaches.New caches).Close s).1, (((multiCaches.New caches).Close s).2, log1))) := by
  refine ⟨fun key data ttl => Set_traced_same key data ttl caches 0 s log,
    fun key ptr fnIsNil => Get_traced_same key ptr fnIsNil caches 0 s log,
    fun key => Delete_traced_same key caches 0 false s log,
    fun key => IsExist_traced_same key caches 0 s log,
    Flush_traced_same caches 0 0 s log, ?_⟩
  obtain ⟨log1, h⟩ := CloseLoop_traced_same caches 0 [] s log
  refine ⟨log1, ?_⟩
  show multiCaches.Close (tracedFrom 0 caches) (s, log) =
    ((multiCaches.Close caches s).1, ((multiCaches.Close caches s).2, log1))
  simp only [multiCaches.Close, h]
  split <;> rfl

end observed

section claimsGet

variable {S D P : Type}

/-- C1 (composite Get, cascading hit). The tiers `pre`, called in list order with the probe
loader, each invoke it and return nil; the next tier `c` returns nil without invoking it and
leaves the state `s2` (which holds what `c` decoded through `ptr`). Then the composite over
`pre ++ c :: post`, whatever the tiers `post` are and whether or not the caller's loader is nil,
returns nil in the state `s2` without invoking the caller's loader (the run is a plain return),
and the calls received by the tiers are exactly one `Get` on each of the tiers `0..i` in order:
no call on a later tier and no `Set` on any tier. -/
theorem multiCaches_Get_cascading_hit (pre post : List (Cache S D P)) (c : Cache S D P)
    (key : String) (ptr : P) (fnIsNil : Bool) (s s2 : S)
    (hmiss : ∀ r ∈ (callAll (probeGet key ptr) pre s).1, r = (none, false))
    (hhit : probeGet key ptr c (callAll (probeGet key ptr) pre s).2 = ((none, true), s2)) :
    (multiCaches.New (tracedFrom 0 (pre ++ c :: post))).Get key ptr fnIsNil (s, []) =
      GetRun.ret none
        (s2, (List.range (pre.length + 1)).map (fun i => Call.Get i key ptr false)) := by
  show multiCaches.Get (tracedFrom 0 (pre ++ c :: post)) key ptr fnIsNil (s, []) = _
  rw [Get_traced_skip key ptr fnIsNil pre (c :: post) 0 s [] hmiss]
  simp only [tracedFrom, multiCaches.Get, probeGet_traced, hhit]
  simp [List.range_eq_range', List.range'_concat]

/-- Witness for C1 on the tiers of `TestCacheImplement` followed by an unreachable tier: the
value is found in the third tier. -/
theorem multiCaches_Get_cascading_hit_witness :
    (multiCaches.New (tracedFrom 0
        ([demo.localTier 0 false, demo.redisTier 1 false none] ++
          demo.localTier 2 true :: [demo.failingTier "down"]))).Get
        "test:set" demo.Ptr.cacheInt false (demo.world0, []) =
      GetRun.ret none
        ({ demo.world0 with cacheInt := 1 },
          (List.range (2 + 1)).map (fun i => Call.Get i "test:set" demo.Ptr.cacheInt false)) :=
  multiCaches_Get_cascading_hit [demo.localTier 0 false, demo.redisTier 1 false none]
    [demo.failingTier "down"] (demo.localTier 2 true) "test:set" demo.Ptr.cacheInt false
    demo.world0 { demo.world0 with cacheInt := 1 } (by decide) (by decide)

/-- C2 (composite Get, all-miss). Every tier of the list (which may be empty), called in list
order with the probe loader, invokes it and returns nil, the last one leaving the state `s1`.
Then the composite, handed a non-nil loader, invokes that loader once in `s1` and returns
what it returned (so running it against a loader `fn` gives the result of `fn`); handed a nil
loader it returns nil in `s1` without invoking anything. Every tier receives one `Get`, each
with a non-nil loader. -/
theorem multiCaches_Get_all_miss (caches : List (Cache S D P)) (key : String) (ptr : P) (s : S)
    (hmiss : ∀ r ∈ (callAll (probeGet key ptr) caches s).1, r = (none, false)) :
    (multiCaches.New (tracedFrom 0 caches)).Get key ptr false (s, []) =
        GetRun.invoke
          ((callAll (probeGet key ptr) caches s).2,
            (List.range caches.length).map (fun i => Call.Get i key ptr false))
          (fun r t => GetRun.ret r t) ∧
      (∀ fn : S × List (Call D P) → Option GoError × (S × List (Call D P)),
        ((multiCaches.New (tracedFrom 0 caches)).Get key ptr false (s, [])).exec (some fn) =
          Outcome.returned
            (fn ((callAll (probeGet key ptr) caches s).2,
              (List.range caches.length).map (fun i => Call.Get i key ptr false))).1
            (fn ((callAll (probeGet key ptr) caches s).2,
              (List.range caches.length).map (fun i => Call.Get i key ptr false))).2) ∧
      ((multiCaches.New (tracedFrom 0 caches)).Get key ptr true (s, [])).exec none =
        Outcome.returned none
          ((callAll (probeGet key ptr) caches s).2,
            (List.range caches.length).map (fun i => Call.Get i key ptr false)) := by
  have h := fun b => Get_traced_skip key ptr b caches [] 0 s [] hmiss
  simp only [List.append_nil, tracedFrom, multiCaches.Get, List.nil_append, Nat.zero_add,
    ← List.range_eq_range'] at h
  refine ⟨?_, ?_, ?_⟩
  · show multiCaches.Get (tracedFrom 0 caches) key ptr false (s, []) = _
    rw [h false]; rfl
  · intro fn
    show (multiCaches.Get (tracedFrom 0 caches) key ptr false (s, [])).exec (some fn) = _
    rw [h false]; rfl
  · show (multiCaches.Get (tracedFrom 0 caches) key ptr true (s, [])).exec none = _
    rw [h true]; rfl

/-- Witness for C2 on a list made only of disabled backends, with the loader of the test
suite: the composite returns the error of the loader, which ran once. -/
theorem multiCaches_Get_all_miss_witness :
    ((multiCaches.New (tracedFrom 0 [demo.localTier 0 false, demo.redisTier 1 false none])).Get
        "test:get:missing" demo.Ptr.null false (demo.world0, [])).exec
        (some (fun t => ((demo.missCacheFn t.1).1, ((demo.missCacheFn t.1).2, t.2)))) =
      Outcome.returned (some (Errorf "missing cache hit"))
        ({ demo.world0 with loads := 1 },
          [Call.Get 0 "test:get:missing" demo.Ptr.null false,
            Call.Get 1 "test:get:missing" demo.Ptr.null false]) :=
  (multiCaches_Get_all_miss [demo.localTier 0 false, demo.redisTier 1 false none]
    "test:get:missing" demo.Ptr.null demo.world0 (by decide)).2.1
    (fun t => ((demo.missCacheFn t.1).1, ((demo.missCacheFn t.1).2, t.2)))

/-- C3 (composite Get, tier error). The tiers `pre`, called in list order with the probe
loader, each invoke it and return nil; the next tier `c` returns the error `e` (whether or not
it invoked the probe loader), leaving the state `s2`. Then the composite over
`pre ++ c :: post` returns exactly `e` in the state `s2` without invoking the caller's loader,
and the calls received are one `Get` on each of the tiers `0..i`: no later tier is consulted. -/
theorem multiCaches_Get_tier_error (pre post : List (Cache S D P)) (c : Cache S D P)
    (key : String) (ptr : P) (fnIsNil : Bool) (s s2 : S) (e : GoError) (isFound : Bool)
    (hmiss : ∀ r ∈ (callAll (probeGet key ptr) pre s).1, r = (none, false))
    (herr : probeGet key ptr c (callAll (probeGet key ptr) pre s).2 = ((some e, isFound), s2)) :
    (multiCaches.New (tracedFrom 0 (pre ++ c :: post))).Get key ptr fnIsNil (s, []) =
      GetRun.ret (some e)
        (s2, (List.range (pre.length + 1)).map (fun i => Call.Get i key ptr false)) := by
  show multiCaches.Get (tracedFrom 0 (pre ++ c :: post)) key ptr fnIsNil (s, []) = _
  rw [Get_traced_skip key ptr fnIsNil pre (c :: post) 0 s [] hmiss]
  simp only [tracedFrom, multiCaches.Get, probeGet_traced, herr]
  simp [List.range_eq_range', List.range'_concat]

/-- Witness for C3: a disabled tier, then an unreachable tier, then a tier holding the key. -/
theorem multiCaches_Get_tier_error_witness :
    (multiCaches.New (tracedFrom 0
        ([demo.localTier 0 false] ++ demo.failingTier "down" :: [demo.localTier 2 true]))).Get
        "test:set" demo.Ptr.cacheInt false (demo.world0, []) =
      GetRun.ret (some (Errorf "down"))
        (demo.world0,
          (List.range (1 + 1)).map (fun i => Call.Get i "test:set" demo.Ptr.cacheInt false)) :=
  multiCaches_Get_tier_error [demo.localTier 0 false] [demo.localTier 2 true]
    (demo.failingTier "down") "test:set" demo.Ptr.cacheInt false demo.world0 demo.world0
    (Errorf "down") true (by decide) (by decide)

end claimsGet

section claimsSet

variable {S D P : Type}

/-- C4 (composite Set). When the tiers, called in list order with the arguments of the
composite, all return nil, the composite returns nil and the calls received are exactly one
`Set(key, data, ttl)` on every tier, in list order. When the tiers `pre` return nil and the
next tier `c` returns the error `e`, leaving the state `s2`, the composite over
`pre ++ c :: post` returns `e` in the state `s2`: that state carries the writes of the tiers
`pre` (nothing is called after the failing `Set`, so nothing is rolled back), and the calls
received are one `Set(key, data, ttl)` on each of the tiers `0..i`, none on a later tier. -/
theorem multiCaches_Set_in_order (key : String) (data : D) (ttl : Int) (s : S) :
    (∀ caches : List (Cache S D P),
      (∀ r ∈ (callAll (fun c => c.Set key data ttl) caches s).1, r = none) →
      (multiCaches.New (tracedFrom 0 caches)).Set key data ttl (s, []) =
        (none, ((callAll (fun c => c.Set key data ttl) caches s).2,
          (List.range caches.length).map (fun i => Call.Set i key data ttl)))) ∧
    (∀ (pre post : List (Cache S D P)) (c : Cache S D P) (e : GoError) (s2 : S),
      (∀ r ∈ (callAll (fun c => c.Set key data ttl) pre s).1, r = none) →
      c.Set key data ttl (callAll (fun c => c.Set key data ttl) pre s).2 = (some e, s2) →
      (multiCaches.New (tracedFrom 0 (pre ++ c :: post))).Set key data ttl (s, []) =
        (some e, (s2, (List.range (pre.length + 1)).map (fun i => Call.Set i key data ttl)))) := by
  constructor
  · intro caches hok
    have h := Set_traced_skip key data ttl caches [] 0 s [] hok
    simp only [List.append_nil, tracedFrom, multiCaches.Set, List.nil_append,
      ← List.range_eq_range'] at h
    exact h
  · intro pre post c e s2 hok herr
    show multiCaches.Set (tracedFrom 0 (pre ++ c :: post)) key data ttl (s, []) = _
    rw [Set_traced_skip key data ttl pre (c :: post) 0 s [] hok]
    simp only [tracedFrom, multiCaches.Set, traced, herr]
    simp [List.range_eq_range', List.range'_concat]

/-- Witness for C4. On the tiers of `TestCacheImplement` every tier receives the `Set` and the
enabled one stores the entry. With an unreachable second tier, the first tier is written, the
second fails, the third is not written, and the entry written to the first tier stays. -/
theorem multiCaches_Set_in_order_witness :
    (multiCaches.New (tracedFrom 0 demo.testTiers)).Set "k" (demo.Val.int 7) 0
        (demo.world0, []) =
      (none,
        ({ demo.world0 with
            stores := [[], [], [("k", demo.Val.int 7), ("test:set", demo.Val.int 1)]] },
          [Call.Set 0 "k" (demo.Val.int 7) 0, Call.Set 1 "k" (demo.Val.int 7) 0,
            Call.Set 2 "k" (demo.Val.int 7) 0])) ∧
    (multiCaches.New (tracedFrom 0
        ([demo.localTier 0 true] ++ demo.failingTier "down" :: [demo.localTier 2 true]))).Set
        "k" (demo.Val.int 7) 0 (demo.world0, []) =
      (some (Errorf "down"),
        ({ demo.world0 with stores := [[("k", demo.Val.int 7)], [], [("test:set", demo.Val.int 1)]] },
          (List.range (1 + 1)).map (fun i => Call.Set i "k" (demo.Val.int 7) 0))) :=
  ⟨(multiCaches_Set_in_order "k" (demo.Val.int 7) 0 demo.world0).1 demo.testTiers (by decide),
    (multiCaches_Set_in_order "k" (demo.Val.int 7) 0 demo.world0).2
      [demo.localTier 0 true] [demo.localTier 2 true] (demo.failingTier "down") (Errorf "down")
      { demo.world0 with stores := [[("k", demo.Val.int 7)], [], [("test:set", demo.Val.int 1)]] }
      (by decide) (by decide)⟩

end claimsSet

section claimsDelete

variable {S D P : Type}

theorem Delete_traced_skip (key : String) (pre rest : List (Cache S D P))
    (n : Nat) (ok : Bool) (s : S) (log : List (Call D P))
    (hok : ∀ r ∈ (callAll (fun c => c.Delete key) pre s).1, r.2 = none) :
    multiCaches.DeleteLoop (tracedFrom n (pre ++ rest)) key ok (s, log) =
      multiCaches.DeleteLoop (tracedFrom (n + pre.length) rest) key
        (ok || (callAll (fun c => c.Delete key) pre s).1.any (fun r => r.1))
        ((callAll (fun c => c.Delete key) pre s).2,
          log ++ (List.range' n pre.length).map (fun i => Call.Delete i key)) := by
  induction pre generalizing n ok s log with
  | nil => simp [callAll]
  | cons c cs ih =>
    simp only [callAll, List.mem_cons, forall_eq_or_imp] at hok
    obtain ⟨h1, h2⟩ := hok
    rw [List.cons_append]
    simp only [tracedFrom, multiCaches.DeleteLoop, traced]
    rcases hc : c.Delete key s with ⟨⟨b, e⟩, s1⟩
    simp only [hc] at h1 h2 ⊢
    subst h1
    simp only []
    rw [ih (n + 1) _ _ _ h2]
    simp [callAll, hc, List.range'_succ, Nat.add_assoc, Nat.add_comm 1, Bool.or_assoc]

/-- C5 (composite Delete). When no tier, called in list order, returns an error, the composite
returns nil with the logical OR of the removal flags of all the tiers, and every tier receives
exactly one `Delete(key)`, in list order (the loop goes on after a removal). When the tiers
`pre` return no error and the next tier `c` returns the flag `b` with the error `e`, the
composite over `pre ++ c :: post` returns `e` with the OR of the flags of the tiers `0..i`
(the flag of `c` included), and the calls received are one `Delete(key)` on each of the tiers
`0..i`, none on a later tier. -/
theorem multiCaches_Delete_or_of_flags (key : String) (s : S) :
    (∀ caches : List (Cache S D P),
      (∀ r ∈ (callAll (fun c => c.Delete key) caches s).1, r.2 = none) →
      (multiCaches.New (tracedFrom 0 caches)).Delete key (s, []) =
        (((callAll (fun c => c.Delete key) caches s).1.any (fun r => r.1), none),
          ((callAll (fun c => c.Delete key) caches s).2,
            (List.range caches.length).map (fun i => Call.Delete i key)))) ∧
    (∀ (pre post : List (Cache S D P)) (c : Cache S D P) (b : Bool) (e : GoError) (s2 : S),
      (∀ r ∈ (callAll (fun c => c.Delete key) pre s).1, r.2 = none) →
      c.Delete key (callAll (fun c => c.Delete key) pre s).2 = ((b, some e), s2) →
      (multiCaches.New (tracedFrom 0 (pre ++ c :: post))).Delete key (s, []) =
        ((((callAll (fun c => c.Delete key) pre s).1.any (fun r => r.1) || b), some e),
          (s2, (List.range (pre.length + 1)).map (fun i => Call.Delete i key)))) := by
  constructor
  · intro caches hok
    have h := Delete_traced_skip key caches [] 0 false s [] hok
    simp only [List.append_nil, tracedFrom, multiCaches.DeleteLoop, List.nil_append,
      ← List.range_eq_range', Bool.false_or] at h
    exact h
  · intro pre post c b e s2 hok herr
    show multiCaches.DeleteLoop (tracedFrom 0 (pre ++ c :: post)) key false (s, []) = _
    rw [Delete_traced_skip key pre (c :: post) 0 false s [] hok]
    simp only [tracedFrom, multiCaches.DeleteLoop, traced, herr]
    simp [List.range_eq_range', List.range'_concat]

/-- Witness for C5. Without errors the key is removed from the first and the third tier (the
loop does not stop at the first removal), the second tier being disabled. With an unreachable
second tier, the removal in the first tier is reported next to the error and the third tier
keeps its entry. -/
theorem multiCaches_Delete_or_of_flags_witness :
    (multiCaches.New (tracedFrom 0
        [demo.localTier 2 true, demo.redisTier 1 false none, demo.localTier 3 true])).Delete
        "test:set" (demo.world1, []) =
      ((true, none),
        ({ demo.world1 with stores := [[], [], [], []] },
          [Call.Delete 0 "test:set", Call.Delete 1 "test:set", Call.Delete 2 "test:set"])) ∧
    (multiCaches.New (tracedFrom 0
        ([demo.localTier 2 true] ++ demo.failingTier "down" :: [demo.localTier 3 true]))).Delete
        "test:set" (demo.world1, []) =
      ((true, some (Errorf "down")),
        ({ demo.world1 with stores := [[], [], [], [("test:set", demo.Val.int 1)]] },
          [Call.Delete 0 "test:set", Call.Delete 1 "test:set"])) :=
  ⟨(multiCaches_Delete_or_of_flags "test:set" demo.world1).1
      [demo.localTier 2 true, demo.redisTier 1 false none, demo.localTier 3 true] (by decide),
    (multiCaches_Delete_or_of_flags "test:set" demo.world1).2
      [demo.localTier 2 true] [demo.localTier 3 true] (demo.failingTier "down") false
      (Errorf "down")
      { demo.world1 with stores := [[], [], [], [("test:set", demo.Val.int 1)]] }
      (by decide) (by decide)⟩

end claimsDelete

section claimsIsExist

variable {S D P : Type}

theorem IsExist_traced_skip (key : String) (pre rest : List (Cache S D P))
    (n : Nat) (s : S) (log : List (Call D P))
    (hno : ∀ r ∈ (callAll (fun c => c.IsExist key) pre s).1, r = (false, none)) :
    multiCaches.IsExist (tracedFrom n (pre ++ rest)) key (s, log) =
      multiCaches.IsExist (tracedFrom (n + pre.length) rest) key
        ((callAll (fun c => c.IsExist key) pre s).2,
          log ++ (List.range' n pre.length).map (fun i => Call.IsExist i key)) := by
  induction pre generalizing n s log with
  | nil => simp [callAll]
  | cons c cs ih =>
    simp only [callAll, List.mem_cons, forall_eq_or_imp] at hno
    obtain ⟨h1, h2⟩ := hno
    rw [List.cons_append]
    simp only [tracedFrom, multiCaches.IsExist, traced, h1]
    simp only [Option.isSome_none, Bool.or_self, Bool.false_eq_true, if_false]
    rw [ih (n + 1) _ _ h2]
    simp [callAll, List.range'_succ, Nat.add_assoc, Nat.add_comm 1]

/-- C6 (composite IsExist). When every tier, called in list order, returns `(false, nil)`
(in particular for the empty list), the composite returns `(false, nil)` after one
`IsExist(key)` on every tier. When the tiers `pre` return `(false, nil)` and the next tier `c`
returns `(ok, err)` with `ok` true or `err` non-nil, the composite over `pre ++ c :: post`
returns that pair `(ok, err)`, and the calls received are one `IsExist(key)` on each of the
tiers `0..i`: no later tier is consulted. -/
theorem multiCaches_IsExist_first_answer (key : String) (s : S) :
    (∀ caches : List (Cache S D P),
      (∀ r ∈ (callAll (fun c => c.IsExist key) caches s).1, r = (false, none)) →
      (multiCaches.New (tracedFrom 0 caches)).IsExist key (s, []) =
        ((false, none),
          ((callAll (fun c => c.IsExist key) caches s).2,
            (List.range caches.length).map (fun i => Call.IsExist i key)))) ∧
    (∀ (pre post : List (Cache S D P)) (c : Cache S D P) (ok : Bool) (err : Option GoError)
        (s2 : S),
      (∀ r ∈ (callAll (fun c => c.IsExist key) pre s).1, r = (false, none)) →
      c.IsExist key (callAll (fun c => c.IsExist key) pre s).2 = ((ok, err), s2) →
      (ok = true ∨ err ≠ none) →
      (multiCaches.New (tracedFrom 0 (pre ++ c :: post))).IsExist key (s, []) =
        ((ok, err), (s2, (List.range (pre.length + 1)).map (fun i => Call.IsExist i key)))) ∧
    (multiCaches.New ([] : List (Cache S D P))).IsExist key s = ((false, none), s) := by
  refine ⟨?_, ?_, rfl⟩
  · intro caches hno
    have h := IsExist_traced_skip key caches [] 0 s [] hno
    simp only [List.append_nil, tracedFrom, multiCaches.IsExist, List.nil_append,
      ← List.range_eq_range'] at h
    exact h
  · intro pre post c ok err s2 hno hc hstop
    show multiCaches.IsExist (tracedFrom 0 (pre ++ c :: post)) key (s, []) = _
    rw [IsExist_traced_skip key pre (c :: post) 0 s [] hno]
    simp only [tracedFrom, multiCaches.IsExist, traced, hc]
    have hcond : (ok || err.isSome) = true := by
      rcases hstop with h | h
      · simp [h]
      · cases err with
        | none => exact absurd rfl h
        | some e => simp
    simp [hcond, List.range_eq_range', List.range'_concat]

/-- Witness for C6 on the tiers of `TestCacheImplement` followed by an unreachable tier: the
third tier reports the key and the fourth is not consulted. -/
theorem multiCaches_IsExist_first_answer_witness :
    (multiCaches.New (tracedFrom 0
        ([demo.localTier 0 false, demo.redisTier 1 false none] ++
          demo.localTier 2 true :: [demo.failingTier "down"]))).IsExist
        "test:set" (demo.world0, []) =
      ((true, none),
        (demo.world0, (List.range (2 + 1)).map (fun i => Call.IsExist i "test:set"))) ∧
    (multiCaches.New (tracedFrom 0 demo.testTiers)).IsExist "test:is-exist:not-found"
        (demo.world0, []) =
      ((false, none),
        (demo.world0, (List.range 3).map (fun i => Call.IsExist i "test:is-exist:not-found"))) :=
  ⟨(multiCaches_IsExist_first_answer "test:set" demo.world0).2.1
      [demo.localTier 0 false, demo.redisTier 1 false none] [demo.failingTier "down"]
      (demo.localTier 2 true) true none demo.world0 (by decide) (by decide) (Or.inl rfl),
    (multiCaches_IsExist_first_answer "test:is-exist:not-found" demo.world0).1
      demo.testTiers (by decide)⟩

end claimsIsExist

section claimsFlush

variable {S D P B : Type}

theorem Flush_traced_skip (pre rest : List (Cache S D P))
    (n : Nat) (count : Int) (s : S) (log : List (Call D P))
    (hok : ∀ r ∈ (callAll (fun c => c.Flush) pre s).1, r.2 = none) :
    multiCaches.FlushLoop (tracedFrom n (pre ++ rest)) count (s, log) =
      multiCaches.FlushLoop (tracedFrom (n + pre.length) rest)
        (((callAll (fun c => c.Flush) pre s).1.map (fun r => r.1)).getLastD count)
        ((callAll (fun c => c.Flush) pre s).2,
          log ++ (List.range' n pre.length).map (fun i => Call.Flush i)) := by
  induction pre generalizing n count s log with
  | nil => simp [callAll]
  | cons c cs ih =>
    simp only [callAll, List.mem_cons, forall_eq_or_imp] at hok
    obtain ⟨h1, h2⟩ := hok
    rw [List.cons_append]
    simp only [tracedFrom, multiCaches.FlushLoop, traced]
    rcases hc : c.Flush s with ⟨⟨k, e⟩, s1⟩
    simp only [hc] at h1 h2 ⊢
    subst h1
    simp only []
    rw [ih (n + 1) _ _ _ h2]
    simp only [callAll, hc, List.map_cons, List.getLastD_cons, List.range'_succ,
      List.length_cons, List.append_assoc, List.singleton_append, Nat.add_assoc,
      Nat.add_comm 1]

theorem localCache_Flush_no_error (cacheEngine : freecache.Cache S B) (gob : Codec S D P B)
    (cf : localConfig) (s : S) :
    ((localCache.New cacheEngine gob cf).Flush s).1.2 = none := by
  simp only [localCache.New, localCache.Flush]
  split <;> rfl

/-- What `multiCaches.Flush` reports when no tier fails: every tier receives one `Flush`, and
the count is the count of the last tier (0 for the empty list). -/
theorem Flush_reports_last_count (caches : List (Cache S D P)) (s : S)
    (hok : ∀ r ∈ (callAll (fun c => c.Flush) caches s).1, r.2 = none) :
    (multiCaches.New (tracedFrom 0 caches)).Flush (s, []) =
      (((((callAll (fun c => c.Flush) caches s).1.map (fun r => r.1)).getLastD 0), none),
        ((callAll (fun c => c.Flush) caches s).2,
          (List.range caches.length).map (fun i => Call.Flush i))) := by
  have h := Flush_traced_skip caches [] 0 0 s [] hok
  simp only [List.append_nil, tracedFrom, multiCaches.FlushLoop, List.nil_append,
    ← List.range_eq_range'] at h
  exact h

/-- C7 (composite Flush count), the code at a failing input: over two enabled in-process
backends holding one entry and two entries, no `Flush` fails, both tiers are flushed, the
tiers return the counts 1 and 2, whose sum is 3, and the composite returns the count 2. -/
theorem multiCaches_Flush_count_not_sum :
    (callAll (fun c => c.Flush) [demo.localTier 0 true, demo.localTier 1 true] demo.world2).1 =
        [(1, none), (2, none)] ∧
      (multiCaches.New (tracedFrom 0 [demo.localTier 0 true, demo.localTier 1 true])).Flush
          (demo.world2, []) =
        ((2, none), ({ demo.world2 with stores := [[], []] }, [Call.Flush 0, Call.Flush 1])) ∧
      (((callAll (fun c => c.Flush) [demo.localTier 0 true, demo.localTier 1 true]
          demo.world2).1.map (fun r => r.1)).sum = 3) := by
  exact ⟨by decide, rfl, by decide⟩

/-- C8 (a non-flushable tier propagates). `redisCache.Flush` returns `(0, NotSupportedErr)`
and leaves the state as it is, for every backend value (enabled or not) and every state. Hence
for a composite made of in-process backends `locals`, then a remote backend, then any tiers
`post`, `Flush` returns `NotSupportedErr`, the state is the one left by flushing the
in-process backends in list order, and the calls received are one `Flush` on each of the tiers
up to the remote backend: the tiers after it are not flushed. -/
theorem redisCache_Flush_not_supported :
    (∀ (c : redisCache S D P B) (s : S), c.Flush s = ((0, some NotSupportedErr), s)) ∧
    (∀ (cacheEngine : redisv8.Client S B) (json : Codec S D P B) (cf : redisConfig)
        (keyPrefix : String) (s : S),
      (redisCache.New cacheEngine json cf keyPrefix).Flush s = ((0, some NotSupportedErr), s)) ∧
    (∀ (locals : List (freecache.Cache S B × Codec S D P B × localConfig))
        (cacheEngine : redisv8.Client S B) (json : Codec S D P B) (cf : redisConfig)
        (keyPrefix : String) (post : List (Cache S D P)) (s : S),
      ((multiCaches.New (tracedFrom 0
          (locals.map (fun x => localCache.New x.1 x.2.1 x.2.2) ++
            redisCache.New cacheEngine json cf keyPrefix :: post))).Flush (s, [])).1.2 =
          some NotSupportedErr ∧
        ((multiCaches.New (tracedFrom 0
          (locals.map (fun x => localCache.New x.1 x.2.1 x.2.2) ++
            redisCache.New cacheEngine json cf keyPrefix :: post))).Flush (s, [])).2 =
          ((callAll (fun c => c.Flush)
              (locals.map (fun x => localCache.New x.1 x.2.1 x.2.2)) s).2,
            (List.range (locals.length + 1)).map (fun i => Call.Flush i))) := by
  refine ⟨fun _ _ => rfl, fun _ _ _ _ _ => rfl, ?_⟩
  intro locals cacheEngine json cf keyPrefix post s
  have hok : ∀ (l : List (Cache S D P)) (t : S),
      (∀ c ∈ l, ∀ u, (c.Flush u).1.2 = none) →
      ∀ r ∈ (callAll (fun c => c.Flush) l t).1, r.2 = none := by
    intro l
    induction l with
    | nil => intro t _ r hr; simp [callAll] at hr
    | cons c cs ih =>
      intro t hl r hr
      simp only [callAll, List.mem_cons] at hr
      rcases hr with hr | hr
      · rw [hr]; exact hl c (List.mem_cons_self _ _) t
      · exact ih _ (fun d hd => hl d (List.mem_cons_of_mem _ hd)) r hr
  have hpre := hok (locals.map (fun x => localCache.New x.1 x.2.1 x.2.2)) s (by
    intro c hc u
    obtain ⟨x, _, rfl⟩ := List.mem_map.mp hc
    exact localCache_Flush_no_error x.1 x.2.1 x.2.2 u)
  have h := Flush_traced_skip (locals.map (fun x => localCache.New x.1 x.2.1 x.2.2))
    (redisCache.New cacheEngine json cf keyPrefix :: post) 0 0 s [] hpre
  have hrun : (multiCaches.New (tracedFrom 0
      (locals.map (fun x => localCache.New x.1 x.2.1 x.2.2) ++
        redisCache.New cacheEngine json cf keyPrefix :: post))).Flush (s, []) =
      multiCaches.FlushLoop (tracedFrom 0
        (locals.map (fun x => localCache.New x.1 x.2.1 x.2.2) ++
          redisCache.New cacheEngine json cf keyPrefix :: post)) 0 (s, []) := rfl
  rw [hrun, h]
  simp only [tracedFrom, multiCaches.FlushLoop, traced, redisCache.New, redisCache.Flush]
  simp [List.range_eq_range', List.range'_concat]

end claimsFlush

section claimsClose

variable {S D P : Type}

theorem CloseLoop_traced (caches : List (Cache S D P)) (n : Nat) (errS : List String) (s : S)
    (log : List (Call D P)) :
    multiCaches.CloseLoop (tracedFrom n caches) errS (s, log) =
      (errS ++ ((callAll (fun c => c.Close) caches s).1.filterMap id).map (fun e => e.Error),
        ((callAll (fun c => c.Close) caches s).2,
          log ++ (List.range' n caches.length).map (fun i => Call.Close i))) := by
  induction caches generalizing n errS s log with
  | nil => simp [tracedFrom, multiCaches.CloseLoop, callAll]
  | cons c cs ih =>
    simp only [tracedFrom, multiCaches.CloseLoop, traced]
    rcases hc : c.Close s with ⟨e, s1⟩
    cases e with
    | none =>
      simp only []
      rw [ih]
      simp [callAll, hc, List.range'_succ]
    | some e =>
      simp only []
      rw [ih]
      simp [callAll, hc, List.range'_succ]

theorem intercalate_go_append (sep : String) (l : List String) (acc : String) :
    ∃ b, String.intercalate.go acc sep l = acc ++ b := by
  induction l generalizing acc with
  | nil => exact ⟨"", by simp [String.intercalate.go]⟩
  | cons y ys ih =>
    obtain ⟨b, hb⟩ := ih (acc ++ sep ++ y)
    refine ⟨sep ++ y ++ b, ?_⟩
    simp only [String.intercalate.go]
    rw [hb]
    simp only [String.append_assoc]

theorem intercalate_go_contains (sep : String) (l : List String) (acc x : String)
    (hx : x ∈ l) : ∃ a b, String.intercalate.go acc sep l = a ++ x ++ b := by
  induction l generalizing acc with
  | nil => simp at hx
  | cons y ys ih =>
    rcases List.mem_cons.mp hx with h | h
    · obtain ⟨b, hb⟩ := intercalate_go_append sep ys (acc ++ sep ++ y)
      refine ⟨acc ++ sep, b, ?_⟩
      simp only [String.intercalate.go]
      rw [hb, h]
    · obtain ⟨a, b, hab⟩ := ih (acc ++ sep ++ y) h
      refine ⟨a, b, ?_⟩
      simp only [String.intercalate.go]
      rw [hab]

theorem intercalate_contains (sep : String) (l : List String) (x : String) (hx : x ∈ l) :
    ∃ a b, sep.intercalate l = a ++ x ++ b := by
  cases l with
  | nil => simp at hx
  | cons y ys =>
    rcases List.mem_cons.mp hx with h | h
    · obtain ⟨b, hb⟩ := intercalate_go_append sep ys y
      refine ⟨"", b, ?_⟩
      simp only [String.intercalate]
      rw [hb, h]
      simp
    · obtain ⟨a, b, hab⟩ := intercalate_go_contains sep ys y x h
      refine ⟨a, b, ?_⟩
      simp only [String.intercalate]
      rw [hab]

/-- C9 (composite Close). For every tier list, the calls received are exactly one `Close` on
every tier, in list order, whatever the earlier tiers returned. With `failures` the errors the
tiers returned, in tier order, the composite returns nil when there is none and otherwise the
error whose text is `"errors: "` followed by the texts of the failures joined by `", "`.
So it returns nil if and only if no tier failed, and the text of its error contains the text of
every failure. -/
theorem multiCaches_Close_aggregates (caches : List (Cache S D P)) (s : S) :
    (multiCaches.New (tracedFrom 0 caches)).Close (s, []) =
        ((if (callAll (fun c => c.Close) caches s).1.filterMap id = [] then none
          else some (Errorf ("errors: " ++ ", ".intercalate
            (((callAll (fun c => c.Close) caches s).1.filterMap id).map (fun e => e.Error))))),
          ((callAll (fun c => c.Close) caches s).2,
            (List.range caches.length).map (fun i => Call.Close i))) ∧
      ((((multiCaches.New (tracedFrom 0 caches)).Close (s, [])).1 = none) ↔
        ∀ r ∈ (callAll (fun c => c.Close) caches s).1, r = none) ∧
      (∀ e : GoError, some e ∈ (callAll (fun c => c.Close) caches s).1 →
        ∃ a b : String, ((multiCaches.New (tracedFrom 0 caches)).Close (s, [])).1 =
          some (Errorf ("errors: " ++ (a ++ e.Error ++ b)))) := by
  have hrun : (multiCaches.New (tracedFrom 0 caches)).Close (s, []) =
      ((if (callAll (fun c => c.Close) caches s).1.filterMap id = [] then none
        else some (Errorf ("errors: " ++ ", ".intercalate
          (((callAll (fun c => c.Close) caches s).1.filterMap id).map (fun e => e.Error))))),
        ((callAll (fun c => c.Close) caches s).2,
          (List.range caches.length).map (fun i => Call.Close i))) := by
    show multiCaches.Close (tracedFrom 0 caches) (s, []) = _
    simp only [multiCaches.Close, CloseLoop_traced, List.nil_append, List.length_map,
      List.length_eq_zero, ← List.range_eq_range']
    split <;> rfl
  refine ⟨hrun, ?_, ?_⟩
  · rw [hrun]
    constructor
    · intro h r hr
      cases r with
      | none => rfl
      | some e =>
        have hne : (callAll (fun c => c.Close) caches s).1.filterMap id ≠ [] := by
          intro hnil
          have hmem : e ∈ (callAll (fun c => c.Close) caches s).1.filterMap id :=
            List.mem_filterMap.mpr ⟨some e, hr, rfl⟩
          rw [hnil] at hmem
          simp at hmem
        simp [hne] at h
    · intro h
      have hnil : (callAll (fun c => c.Close) caches s).1.filterMap id = [] := by
        rw [List.filterMap_eq_nil_iff]
        intro r hr
        rw [h r hr]; rfl
      simp [hnil]
  · intro e he
    have hmem : e ∈ (callAll (fun c => c.Close) caches s).1.filterMap id :=
      List.mem_filterMap.mpr ⟨some e, he, rfl⟩
    have hne : (callAll (fun c => c.Close) caches s).1.filterMap id ≠ [] := by
      intro hnil
      rw [hnil] at hmem
      simp at hmem
    obtain ⟨a, b, hab⟩ := intercalate_contains ", "
      (((callAll (fun c => c.Close) caches s).1.filterMap id).map (fun e => e.Error)) e.Error
      (List.mem_map.mpr ⟨e, hmem, rfl⟩)
    refine ⟨a, b, ?_⟩
    rw [hrun]
    simp only [hne, if_false, hab]

/-- Witness for C9: two of three tiers fail to close; all three are closed and the text of
the error holds both failures, in tier order. -/
theorem multiCaches_Close_aggregates_witness :
    (multiCaches.New (tracedFrom 0
        [demo.redisTier 0 true (some "conn reset"), demo.localTier 1 true,
          demo.failingTier "down"])).Close (demo.world0, []) =
      (some (Errorf "errors: conn reset, down"),
        (demo.world0, [Call.Close 0, Call.Close 1, Call.Close 2])) ∧
    (∃ a b : String, ((multiCaches.New (tracedFrom 0
        [demo.redisTier 0 true (some "conn reset"), demo.localTier 1 true,
          demo.failingTier "down"])).Close (demo.world0, [])).1 =
      some (Errorf ("errors: " ++ (a ++ (Errorf "down").Error ++ b)))) :=
  ⟨(multiCaches_Close_aggregates
      [demo.redisTier 0 true (some "conn reset"), demo.localTier 1 true, demo.failingTier "down"]
      demo.world0).1,
    (multiCaches_Close_aggregates
      [demo.redisTier 0 true (some "conn reset"), demo.localTier 1 true, demo.failingTier "down"]
      demo.world0).2.2 (Errorf "down") (by decide)⟩

end claimsClose

section claimsHealth

variable {S D P : Type}

/-- C10 (composite aggregate health). With the tiers asked in list order from the state `s`,
`IsReady` of the composite returns true if and only if `IsReady` of every tier returns true,
and `IsEnable` of the composite returns true if and only if `IsEnable` of at least one tier
returns true; for the empty list `IsReady` is true and `IsEnable` is false. -/
theorem multiCaches_IsReady_and_IsEnable (caches : List (Cache S D P)) (s : S) :
    ((((multiCaches.New caches).IsReady s).1 = true) ↔
        ∀ r ∈ (callAll (fun c => c.IsReady) caches s).1, r = true) ∧
      ((((multiCaches.New caches).IsEnable s).1 = true) ↔
        ∃ r ∈ (callAll (fun c => c.IsEnable) caches s).1, r = true) ∧
      (multiCaches.New ([] : List (Cache S D P))).IsReady s = (true, s) ∧
      (multiCaches.New ([] : List (Cache S D P))).IsEnable s = (false, s) := by
  refine ⟨?_, ?_, rfl, rfl⟩
  · show ((multiCaches.IsReady caches s).1 = true) ↔ _
    induction caches generalizing s with
    | nil => simp [multiCaches.IsReady, callAll]
    | cons c cs ih =>
      simp only [multiCaches.IsReady, callAll, List.mem_cons, forall_eq_or_imp]
      rcases hc : c.IsReady s with ⟨b, s1⟩
      cases b with
      | false => simp
      | true => simpa using ih s1
  · show ((multiCaches.IsEnable caches s).1 = true) ↔ _
    induction caches generalizing s with
    | nil => simp [multiCaches.IsEnable, callAll]
    | cons c cs ih =>
      simp only [multiCaches.IsEnable, callAll, List.mem_cons, exists_eq_or_imp]
      rcases hc : c.IsEnable s with ⟨b, s1⟩
      cases b with
      | true => simp
      | false => simpa using ih s1

end claimsHealth

section claimsBackendGet

variable {S D P B : Type}

theorem exec_some_eq_run (r : GetRun S) (fn : S → Option GoError × S) :
    r.exec (some fn) = Outcome.returned (r.run fn).1 (r.run fn).2 := by
  induction r with
  | ret err s => rfl
  | invoke s k ih => simp only [GetRun.exec, GetRun.run]; exact ih _ _

/-- The guarded path next to the one of C11: on an enabled in-process backend whose engine
does not find the key, `Get` with a nil loader returns nil in the state the engine left. -/
theorem localCache_Get_enabled_miss_nil_loader (cacheEngine : freecache.Cache S B)
    (gob : Codec S D P B) (size dttl : Int) (key : String) (ptr : P) (s s1 : S) (b : B)
    (e : GoError) (hmiss : cacheEngine.Get key s = ((b, some e), s1)) :
    ((localCache.New cacheEngine gob ⟨true, size, dttl⟩).Get key ptr true s).exec none =
      Outcome.returned none s1 := by
  simp [localCache.New, localCache.Get, localCache.IsEnable, hmiss, GetRun.exec]

/-- C11 (backend Get with a nil loader), the code on a disabled backend: for the in-process
backend and for the remote backend built with `Enable = false`, whatever the store, the key
and the pointer, `Get` with a nil loader calls the nil function (`return fn()`), which in Go
is a run-time panic, instead of returning nil. -/
theorem disabled_Get_nil_loader_calls_nil (cacheEngine : freecache.Cache S B)
    (gob : Codec S D P B) (size dttl : Int) (client : redisv8.Client S B)
    (json : Codec S D P B) (endpoint : String) (timeout rdttl : Int) (keyPrefix : String)
    (key : String) (ptr : P) (s : S) :
    ((localCache.New cacheEngine gob ⟨false, size, dttl⟩).Get key ptr true s).exec none =
        Outcome.nilCall s ∧
      ((redisCache.New client json ⟨false, endpoint, timeout, rdttl⟩ keyPrefix).Get
          key ptr true s).exec none = Outcome.nilCall s :=
  ⟨rfl, rfl⟩

/-- C12 (a disabled backend is inert). The in-process backend and the remote backend built
with `Enable = false` are inert, whatever engine or client, codec and other settings they
were built with: `Set` returns nil, `Delete` and `IsExist` return `(false, nil)`, `IsReady`
returns true, `Get` with a non-nil loader invokes it once and returns its result, and the
state (which holds the store and the output) is handed on untouched; none of the results
depends on the engine or client, so the store is not read either. -/
theorem disabled_backend_inert (cacheEngine : freecache.Cache S B)
    (gob : Codec S D P B) (size dttl : Int) (client : redisv8.Client S B)
    (json : Codec S D P B) (endpoint : String) (timeout rdttl : Int) (keyPrefix : String) :
    contract.Inert (localCache.New cacheEngine gob ⟨false, size, dttl⟩) ∧
      contract.Inert (redisCache.New client json ⟨false, endpoint, timeout, rdttl⟩ keyPrefix) := by
  constructor
  · intro key data ttl ptr s
    exact ⟨rfl, rfl, rfl, rfl, rfl, fun _ => rfl⟩
  · intro key data ttl ptr s
    exact ⟨rfl, rfl, rfl, rfl, rfl, fun _ => rfl⟩

end claimsBackendGet

section claimsTTL

variable {S D P B : Type}

theorem ttlPolicy_eq (DefaultTTL ttl : Int) :
    ttlPolicy DefaultTTL ttl = if ttl < 0 then DefaultTTL else ttl := by
  unfold ttlPolicy
  split
  · rfl
  · split
    · next h => exact h.symm
    · rfl

theorem wrapInt64_seconds (n : Int) (hlo : -9223372036 ≤ n) (hhi : n ≤ 9223372036) :
    wrapInt64 (n * timeSecond) = n * timeSecond := by
  unfold wrapInt64 timeSecond
  omega

/-- C13 as stated fails on the remote backend: with `ttl = 9223372037` the product
`time.Duration(ttl) * time.Second` leaves the range of `int64`, and the expiration handed to
the client is the negative duration `-9223372036709551616` ns, not 9223372037 seconds. -/
theorem redisCache_Set_ttl_wraps :
    (redisCache.New demo.ttlClient demo.ttlCodec ⟨true, "localhost:6379", 60, 60⟩ "test").Set
        "k" (demo.Val.int 1) 9223372037 [] = (none, [-9223372036709551616]) ∧
      ttlPolicy 60 9223372037 * timeSecond = 9223372037000000000 ∧
      (-9223372036709551616 : Int) ≠ 9223372037000000000 := by
  refine ⟨by decide, by decide, by decide⟩

/-- C13 amended (TTL policy of Set). When the value encodes to the payload `b`, an enabled
in-process backend hands the engine, for every `ttl`, the seconds of the policy (the
configured default when `ttl < 0`, `0` for no expiry when `ttl = 0`, `ttl` when `ttl > 0`);
an enabled remote backend hands the client that number of seconds as a duration (times
`time.Second`) provided the number lies between -9223372036 and 9223372036, the range in which
the duration fits an `int64`. -/
theorem Set_hands_ttlPolicy (key : String) (data : D) (ttl : Int) (s : S) (b : B) :
    (∀ (cacheEngine : freecache.Cache S B) (gob : Codec S D P B) (size dttl : Int),
      gob.encode data = (b, none) →
      (localCache.New cacheEngine gob ⟨true, size, dttl⟩).Set key data ttl s =
        cacheEngine.Set key b (ttlPolicy dttl ttl) s) ∧
    (∀ (client : redisv8.Client S B) (json : Codec S D P B) (endpoint : String)
        (timeout dttl : Int) (keyPrefix : String),
      json.encode data = (b, none) →
      -9223372036 ≤ ttlPolicy dttl ttl → ttlPolicy dttl ttl ≤ 9223372036 →
      (redisCache.New client json ⟨true, endpoint, timeout, dttl⟩ keyPrefix).Set key data ttl s =
        client.Set
          (redisCache.getKey
            ⟨client, ⟨true, endpoint, timeout, dttl⟩, trimRightColons keyPrefix, json⟩ key)
          b (ttlPolicy dttl ttl * timeSecond) s) := by
  constructor
  · intro cacheEngine gob size dttl henc
    simp [localCache.New, localCache.Set, localCache.IsEnable, henc, ttlPolicy_eq]
  · intro client json endpoint timeout dttl keyPrefix henc hlo hhi
    rw [← wrapInt64_seconds _ hlo hhi]
    simp [redisCache.New, redisCache.Set, redisCache.IsEnable, henc, ttlPolicy_eq]

/-- Witness for the amended C13: with the default of 60 seconds, `ttl = -1` hands 60 seconds
to the engine and 60 s as a duration to the client, `ttl = 0` hands 0 and `ttl = 1` hands 1. -/
theorem Set_hands_ttlPolicy_witness :
    (localCache.New demo.ttlEngine demo.ttlCodec ⟨true, 1000000, 60⟩).Set
        "k" (demo.Val.int 1) (-1) [] = (none, [60]) ∧
      (redisCache.New demo.ttlClient demo.ttlCodec ⟨true, "localhost:6379", 60, 60⟩ "test").Set
        "k" (demo.Val.int 1) (-1) [] = (none, [60000000000]) ∧
      (localCache.New demo.ttlEngine demo.ttlCodec ⟨true, 1000000, 60⟩).Set
        "k" (demo.Val.int 1) 0 [] = (none, [0]) ∧
      (redisCache.New demo.ttlClient demo.ttlCodec ⟨true, "localhost:6379", 60, 60⟩ "test").Set
        "k" (demo.Val.int 1) 1 [] = (none, [1000000000]) :=
  ⟨(Set_hands_ttlPolicy "k" (demo.Val.int 1) (-1) [] (demo.Val.int 1)).1
      demo.ttlEngine demo.ttlCodec 1000000 60 rfl,
    (Set_hands_ttlPolicy "k" (demo.Val.int 1) (-1) [] (demo.Val.int 1)).2
      demo.ttlClient demo.ttlCodec "localhost:6379" 60 60 "test" rfl (by decide) (by decide),
    (Set_hands_ttlPolicy "k" (demo.Val.int 1) 0 [] (demo.Val.int 1)).1
      demo.ttlEngine demo.ttlCodec 1000000 60 rfl,
    (Set_hands_ttlPolicy "k" (demo.Val.int 1) 1 [] (demo.Val.int 1)).2
      demo.ttlClient demo.ttlCodec "localhost:6379" 60 60 "test" rfl (by decide) (by decide)⟩

end claimsTTL

section claimsRoundTrip

variable {D P B : Type}

theorem freecache_not_isExpired (now d : Nat) (e : Int)
    (h : e ≤ 0 ∨ ((d : Int) < e ∧ (now : Int) + e < 4294967296)) :
    freecache.isExpired (freecache.expireAt now e) ((now + d) % 4294967296) = false := by
  unfold freecache.isExpired freecache.expireAt freecache.uint32
  rcases h with h | ⟨h1, h2⟩
  · have hn : ¬ e > 0 := by omega
    simp [hn]
  · have hp : e > 0 := by omega
    have hu : (e % 4294967296).toNat = e.toNat := by
      rw [Int.emod_eq_of_lt (by omega) (by omega)]
    have he : ((e.toNat : Nat) : Int) = e := Int.toNat_of_nonneg (by omega)
    have h3 : (now + e.toNat) % 4294967296 = now + e.toNat :=
      Nat.mod_eq_of_lt (by omega)
    have h4 : (now + d) % 4294967296 = now + d := Nat.mod_eq_of_lt (by omega)
    simp only [hp, if_true, hu, h3, h4]
    have h5 : ¬ (now + e.toNat ≤ now + d) := by omega
    simp [h5]

theorem freecache_timed_Set_Get {M : Type} (noValue : B) (key : String) (b : B) (e : Int)
    (d : Nat) (s : freecache.Store B × M)
    (hx : freecache.isExpired (freecache.expireAt s.1.now e) ((s.1.now + d) % 4294967296) =
      false) :
    (freecache.timed noValue).Get key
        (freecache.tick d ((freecache.timed noValue).Set key b e s).2) =
      ((b, none), freecache.tick d ((freecache.timed noValue).Set key b e s).2) := by
  simp [freecache.timed, freecache.tick, hx]

theorem freecache_timed_Set_Get_expired {M : Type} (noValue : B) (key : String) (b : B)
    (e : Int) (d : Nat) (s : freecache.Store B × M)
    (hx : freecache.isExpired (freecache.expireAt s.1.now e) ((s.1.now + d) % 4294967296) =
      true) :
    ((freecache.timed noValue).Get key
        (freecache.tick d ((freecache.timed noValue).Set key b e s).2)).1 =
      (noValue, some freecache.ErrNotFound) := by
  simp [freecache.timed, freecache.tick, hx]

/-- C14 as stated fails on the in-process backend: freecache keeps the expiry as
`now + uint32(expireSeconds)`, so with `ttl = 4294967296` the entry expires at the second it
is written. `Set("k", 1, 4294967296)` succeeds, and `Get("k", &cacheInt, missCacheFn)` right
after it (no second has passed) runs the loader and returns its error; `cacheInt` stays 0. -/
theorem localCache_round_trip_fails_at_uint32_expiry :
    ((localCache.New (freecache.timed (demo.Val.str "")) demo.timedCodec
        ⟨true, 1000000, 0⟩).Set "k" (demo.Val.int 1) 4294967296 demo.timedWorld).1 = none ∧
      ((localCache.New (freecache.timed (demo.Val.str "")) demo.timedCodec
        ⟨true, 1000000, 0⟩).Get "k" demo.Ptr.cacheInt false
          ((localCache.New (freecache.timed (demo.Val.str "")) demo.timedCodec
            ⟨true, 1000000, 0⟩).Set "k" (demo.Val.int 1) 4294967296 demo.timedWorld).2).exec
          (some demo.timedMissCacheFn) =
        Outcome.returned (some (Errorf "missing cache hit"))
          (⟨[], 1790000000⟩, { demo.world0 with loads := 1 }) := by
  exact ⟨by decide, rfl⟩

/-- C14 amended (Set/Get round trip while the store holds the entry). The value `v` encodes
to the payload `b` and `Set(key, v, ttl)` succeeds, leaving the state `s1`; `e` is the number
of seconds of the TTL policy (the default when `ttl < 0`, otherwise `ttl`).

In-process backend over the freecache store: `d` seconds pass on the clock of the store and, by
the test of the store itself, the entry has not expired then: its expiry second, which is
`now + uint32(e)` in `uint32` when `e > 0` and 0 otherwise, is 0 or later than the clock (this
holds whenever `e` is not positive, and whenever `d < e` and the clock at `Set` plus `e` stays
below `2^32`, by `freecache_not_isExpired`); and the codec decodes `b` into the variable
behind `ptr` as `v` in the state of the `Get`. Then `Get` is a plain return of nil (the
loader, nil or not, is not invoked) in a state where the output reads `v`.

Remote backend: the client, asked for the prefixed key in the state left by the `Set` it
accepted (of that key, the payload `b` and the duration the backend computed), returns `b`,
and the codec decodes it into the variable behind `ptr` as `v`. Then `Get` in `s1` is a plain
return of nil in a state where the output reads `v`. -/
theorem Set_then_Get_round_trip_while_live (key : String) (v : D) (ttl : Int) (ptr : P)
    (fnIsNil : Bool) (b : B) :
    (∀ (M : Type) (noValue : B) (gob : Codec (freecache.Store B × M) D P B) (size dttl : Int)
        (out : freecache.Store B × M → D) (s s1 : freecache.Store B × M) (d : Nat),
      gob.encode v = (b, none) →
      (localCache.New (freecache.timed noValue) gob ⟨true, size, dttl⟩).Set key v ttl s =
        (none, s1) →
      freecache.isExpired (freecache.expireAt s.1.now (ttlPolicy dttl ttl))
        ((s.1.now + d) % 4294967296) = false →
      (∃ s3, gob.decode b ptr (freecache.tick d s1) = (none, s3) ∧ out s3 = v) →
      ∃ s3, (localCache.New (freecache.timed noValue) gob ⟨true, size, dttl⟩).Get
          key ptr fnIsNil (freecache.tick d s1) = GetRun.ret none s3 ∧ out s3 = v) ∧
    (∀ (S : Type) (client : redisv8.Client S B) (json : Codec S D P B) (endpoint : String)
        (timeout dttl : Int) (keyPrefix : String) (out : S → D) (s s1 : S),
      json.encode v = (b, none) →
      (redisCache.New client json ⟨true, endpoint, timeout, dttl⟩ keyPrefix).Set key v ttl s =
        (none, s1) →
      (∀ t1,
        client.Set
          (redisCache.getKey
            ⟨client, ⟨true, endpoint, timeout, dttl⟩, trimRightColons keyPrefix, json⟩ key)
          b (wrapInt64 (ttlPolicy dttl ttl * timeSecond)) s = (none, t1) →
        ∃ t2 s3, client.Get
          (redisCache.getKey
            ⟨client, ⟨true, endpoint, timeout, dttl⟩, trimRightColons keyPrefix, json⟩ key) t1 =
            ((b, none), t2) ∧
          json.decode b ptr t2 = (none, s3) ∧ out s3 = v) →
      ∃ s3, (redisCache.New client json ⟨true, endpoint, timeout, dttl⟩ keyPrefix).Get
          key ptr fnIsNil s1 = GetRun.ret none s3 ∧ out s3 = v) := by
  constructor
  · intro M noValue gob size dttl out s s1 d henc hset hlive hcodec
    simp only [localCache.New, localCache.Set, localCache.IsEnable, henc, Bool.not_true,
      Bool.false_eq_true, if_false, ← ttlPolicy_eq] at hset
    have hs1 : s1 = ((freecache.timed noValue).Set key b (ttlPolicy dttl ttl) s).2 := by
      rw [hset]
    have hget := freecache_timed_Set_Get noValue key b (ttlPolicy dttl ttl) d s hlive
    rw [← hs1] at hget
    obtain ⟨s3, h3, hv⟩ := hcodec
    exact ⟨s3, by simp [localCache.New, localCache.Get, localCache.IsEnable, hget, h3], hv⟩
  · intro S client json endpoint timeout dttl keyPrefix out s s1 henc hset hstore
    simp only [redisCache.New, redisCache.Set, redisCache.IsEnable, henc, Bool.not_true,
      Bool.false_eq_true, if_false, ← ttlPolicy_eq] at hset
    obtain ⟨t2, s3, h2, h3, hv⟩ := hstore s1 hset
    exact ⟨s3, by simp [redisCache.New, redisCache.Get, redisCache.IsEnable, h2, h3], hv⟩

/-- Witness for the amended C14 on `testSet`: `Set("test:set:ttl=10", 1, 1)` on an enabled
in-process backend, then `Get` into `cacheInt` before a second has passed; and
`Set("test:set:ttl=0", 1, 0)` on an enabled remote backend, then `Get`. -/
theorem Set_then_Get_round_trip_while_live_witness :
    (∃ s3, (localCache.New (freecache.timed (demo.Val.str "")) demo.timedCodec
        ⟨true, 1000000, 0⟩).Get "test:set:ttl=10" demo.Ptr.cacheInt false
          (freecache.tick 0
            (⟨[("test:set:ttl=10", demo.Val.int 1, 1790000001)], 1790000000⟩, demo.world0)) =
          GetRun.ret none s3 ∧ demo.Val.int s3.2.cacheInt = demo.Val.int 1) ∧
    (∃ s3, (redisCache.New (demo.client 1 none) demo.codec ⟨true, "localhost:6379", 60, 60⟩
        "test").Get "test:set:ttl=0" demo.Ptr.cacheInt false
        (demo.setEntries demo.world0 1 [("test:test:set:ttl=0", demo.Val.int 1)]) =
          GetRun.ret none s3 ∧ demo.Val.int s3.cacheInt = demo.Val.int 1) :=
  ⟨(Set_then_Get_round_trip_while_live "test:set:ttl=10" (demo.Val.int 1) 1
      demo.Ptr.cacheInt false (demo.Val.int 1)).1 demo.World (demo.Val.str "") demo.timedCodec
      1000000 0 (fun s => demo.Val.int s.2.cacheInt) demo.timedWorld
      (⟨[("test:set:ttl=10", demo.Val.int 1, 1790000001)], 1790000000⟩, demo.world0) 0
      rfl (by decide) (by decide)
      ⟨(⟨[("test:set:ttl=10", demo.Val.int 1, 1790000001)], 1790000000⟩,
        { demo.world0 with cacheInt := 1 }), by decide, rfl⟩,
    (Set_then_Get_round_trip_while_live "test:set:ttl=0" (demo.Val.int 1) 0
      demo.Ptr.cacheInt false (demo.Val.int 1)).2 demo.World (demo.client 1 none) demo.codec
      "localhost:6379" 60 60 "test" (fun w => demo.Val.int w.cacheInt) demo.world0
      (demo.setEntries demo.world0 1 [("test:test:set:ttl=0", demo.Val.int 1)])
      rfl (by decide)
      (fun t1 h => ⟨t1, { t1 with cacheInt := 1 }, by
        have ht : t1 = demo.setEntries demo.world0 1
            [("test:test:set:ttl=0", demo.Val.int 1)] := by
          have h2 := congrArg Prod.snd h
          exact h2.symm.trans rfl
        subst ht
        exact ⟨by decide, by decide, rfl⟩⟩)⟩

end claimsRoundTrip

section claimsDecoding

variable {S D P B : Type}

/-- C15 (decoding mismatch on a hit). For an enabled in-process or remote backend: the store
holds a live entry for the key (its `Get` returns the payload `b` without error) and the
codec fails with the error `e` to decode `b` into the variable behind `ptr`. Then `Get` is a
plain return of `e`: the loader is not invoked, so against every loader, nil or not, the
call returns `e` in the state the codec left, never the result of the loader. -/
theorem Get_decoding_mismatch (key : String) (ptr : P) (fnIsNil : Bool) (s s1 s2 : S) (b : B)
    (e : GoError) :
    (∀ (cacheEngine : freecache.Cache S B) (gob : Codec S D P B) (size dttl : Int),
      cacheEngine.Get key s = ((b, none), s1) →
      gob.decode b ptr s1 = (some e, s2) →
      (localCache.New cacheEngine gob ⟨true, size, dttl⟩).Get key ptr fnIsNil s =
          GetRun.ret (some e) s2 ∧
        ∀ fn, ((localCache.New cacheEngine gob ⟨true, size, dttl⟩).Get key ptr fnIsNil s).exec fn =
          Outcome.returned (some e) s2) ∧
    (∀ (client : redisv8.Client S B) (json : Codec S D P B) (endpoint : String)
        (timeout dttl : Int) (keyPrefix : String),
      client.Get
          (redisCache.getKey
            ⟨client, ⟨true, endpoint, timeout, dttl⟩, trimRightColons keyPrefix, json⟩ key) s =
        ((b, none), s1) →
      json.decode b ptr s1 = (some e, s2) →
      (redisCache.New client json ⟨true, endpoint, timeout, dttl⟩ keyPrefix).Get
          key ptr fnIsNil s = GetRun.ret (some e) s2 ∧
        ∀ fn, ((redisCache.New client json ⟨true, endpoint, timeout, dttl⟩ keyPrefix).Get
          key ptr fnIsNil s).exec fn = Outcome.returned (some e) s2) := by
  constructor
  · intro cacheEngine gob size dttl hlive hdec
    have h : (localCache.New cacheEngine gob ⟨true, size, dttl⟩).Get key ptr fnIsNil s =
        GetRun.ret (some e) s2 := by
      simp [localCache.New, localCache.Get, localCache.IsEnable, hlive, hdec]
    exact ⟨h, fun fn => by rw [h]; rfl⟩
  · intro client json endpoint timeout dttl keyPrefix hlive hdec
    have h : (redisCache.New client json ⟨true, endpoint, timeout, dttl⟩ keyPrefix).Get
        key ptr fnIsNil s = GetRun.ret (some e) s2 := by
      simp [redisCache.New, redisCache.Get, redisCache.IsEnable, hlive, hdec]
    exact ⟨h, fun fn => by rw [h]; rfl⟩

/-- Witness for C15 on the last lines of `testGet`: the key holds the integer 1 and a string
is requested; the call returns the error of the codec, not the error of `missCacheFn`. -/
theorem Get_decoding_mismatch_witness :
    ((localCache.New (demo.engine 2) demo.codec ⟨true, 1000000, 0⟩).Get
        "test:set" demo.Ptr.cacheString false demo.world0).exec (some demo.missCacheFn) =
      Outcome.returned (some (Errorf "type mismatch")) demo.world0 ∧
    ((redisCache.New (demo.client 2 none) demo.codec ⟨true, "localhost:6379", 60, 60⟩ "").Get
        "test:set" demo.Ptr.cacheString false demo.world0).exec (some demo.missCacheFn) =
      Outcome.returned (some (Errorf "type mismatch")) demo.world0 :=
  ⟨((Get_decoding_mismatch "test:set" demo.Ptr.cacheString false demo.world0 demo.world0
      demo.world0 (demo.Val.int 1) (Errorf "type mismatch")).1
      (demo.engine 2) demo.codec 1000000 0 (by decide) (by decide)).2 (some demo.missCacheFn),
    ((Get_decoding_mismatch "test:set" demo.Ptr.cacheString false demo.world0 demo.world0
      demo.world0 (demo.Val.int 1) (Errorf "type mismatch")).2
      (demo.client 2 none) demo.codec "localhost:6379" 60 60 "" (by decide) (by decide)).2
      (some demo.missCacheFn)⟩

end claimsDecoding

section claimsRemoteFailure

variable {S D P B : Type}

/-- What `redisCache.Get` does with any error of the client: with a nil loader it returns
nil, with a non-nil loader it invokes the loader and returns its result. -/
theorem redisCache_Get_client_error (client : redisv8.Client S B) (json : Codec S D P B)
    (endpoint : String) (timeout dttl : Int) (keyPrefix : String) (key : String) (ptr : P)
    (fnIsNil : Bool) (s s1 : S) (b : B) (e : GoError)
    (hfail : client.Get
        (redisCache.getKey
          ⟨client, ⟨true, endpoint, timeout, dttl⟩, trimRightColons keyPrefix, json⟩ key) s =
      ((b, some e), s1)) :
    (redisCache.New client json ⟨true, endpoint, timeout, dttl⟩ keyPrefix).Get key ptr fnIsNil s =
      if fnIsNil then GetRun.ret none s1 else GetRun.invoke s1 (fun r t => GetRun.ret r t) := by
  simp [redisCache.New, redisCache.Get, redisCache.IsEnable, hfail]

/-- The sibling operations of an enabled remote backend return the error of the client:
`Set` (when the value encodes), `Delete` and `IsExist`. -/
theorem redisCache_siblings_surface (client : redisv8.Client S B) (json : Codec S D P B)
    (endpoint : String) (timeout dttl : Int) (keyPrefix : String) (key : String) (data : D)
    (ttl : Int) (s : S) (b : B) (henc : json.encode data = (b, none)) :
    ((redisCache.New client json ⟨true, endpoint, timeout, dttl⟩ keyPrefix).Set key data ttl s).1 =
        (client.Set
          (redisCache.getKey
            ⟨client, ⟨true, endpoint, timeout, dttl⟩, trimRightColons keyPrefix, json⟩ key)
          b (wrapInt64 ((if ttl < 0 then dttl else ttl) * timeSecond)) s).1 ∧
      ((redisCache.New client json ⟨true, endpoint, timeout, dttl⟩ keyPrefix).Delete key s).1.2 =
        (client.Del
          (redisCache.getKey
            ⟨client, ⟨true, endpoint, timeout, dttl⟩, trimRightColons keyPrefix, json⟩ key)
          s).1.2 ∧
      ((redisCache.New client json ⟨true, endpoint, timeout, dttl⟩ keyPrefix).IsExist key s).1.2 =
        (client.Exists
          (redisCache.getKey
            ⟨client, ⟨true, endpoint, timeout, dttl⟩, trimRightColons keyPrefix, json⟩ key)
          s).1.2 := by
  simp [redisCache.New, redisCache.Set, redisCache.Delete, redisCache.IsExist,
    redisCache.IsEnable, henc]

/-- C16 (remote failures surface), the code at a failing input: an enabled remote backend
whose server is unreachable, so that every call of the client fails with
`dial tcp: connection refused`. `Set`, `Delete` and `IsExist` return that error, but `Get`
treats it as a miss: with the loader of the test suite it invokes the loader and returns the
error of the loader, and with a nil loader it returns nil. -/
theorem redisCache_Get_hides_client_error :
    ((redisCache.New demo.downClient demo.codec ⟨true, "localhost:6379", 60, 60⟩ "test").Get
        "test:get" demo.Ptr.cacheInt false demo.world0).exec (some demo.missCacheFn) =
      Outcome.returned (some (Errorf "missing cache hit")) { demo.world0 with loads := 1 } ∧
    ((redisCache.New demo.downClient demo.codec ⟨true, "localhost:6379", 60, 60⟩ "test").Get
        "test:get" demo.Ptr.cacheInt true demo.world0).exec none =
      Outcome.returned none demo.world0 ∧
    (redisCache.New demo.downClient demo.codec ⟨true, "localhost:6379", 60, 60⟩ "test").Set
        "test:get" (demo.Val.int 1) 0 demo.world0 =
      (some (Errorf "dial tcp: connection refused"), demo.world0) ∧
    (redisCache.New demo.downClient demo.codec ⟨true, "localhost:6379", 60, 60⟩ "test").Delete
        "test:get" demo.world0 =
      ((false, some (Errorf "dial tcp: connection refused")), demo.world0) ∧
    (redisCache.New demo.downClient demo.codec ⟨true, "localhost:6379", 60, 60⟩ "test").IsExist
        "test:get" demo.world0 =
      ((false, some (Errorf "dial tcp: connection refused")), demo.world0) := by
  refine ⟨rfl, rfl, by decide, by decide, by decide⟩

end claimsRemoteFailure

section claimsMakeKey

theorem intercalate_go_data (l : List String) (acc : String) :
    (String.intercalate.go acc ":" l).data = acc.data ++ tailChars l := by
  induction l generalizing acc with
  | nil => simp [String.intercalate.go, tailChars]
  | cons y ys ih =>
    simp only [String.intercalate.go, tailChars]
    rw [ih]
    simp [String.data_append]

theorem MakeKey_data_cons (x : String) (xs : List String) :
    (MakeKey (x :: xs)).data = x.data ++ tailChars xs := by
  simp only [MakeKey, String.intercalate]
  exact intercalate_go_data xs x

theorem tailChars_shape (l : List String) :
    tailChars l = [] ∨ ∃ r, tailChars l = ':' :: r := by
  cases l with
  | nil => exact Or.inl rfl
  | cons y ys => exact Or.inr ⟨_, rfl⟩

theorem split_at_separator (x : List Char) :
    ∀ (y t1 t2 : List Char), ':' ∉ x → ':' ∉ y →
      (t1 = [] ∨ ∃ r, t1 = ':' :: r) → (t2 = [] ∨ ∃ r, t2 = ':' :: r) →
      x ++ t1 = y ++ t2 → x = y ∧ t1 = t2 := by
  induction x with
  | nil =>
    intro y t1 t2 _ hy h1 _ h
    cases y with
    | nil => exact ⟨rfl, by simpa using h⟩
    | cons d y1 =>
      exfalso
      rcases h1 with h1 | ⟨r, h1⟩
      · rw [h1] at h; simp at h
      · rw [h1] at h
        simp only [List.nil_append, List.cons_append, List.cons.injEq] at h
        exact hy (by rw [← h.1]; exact List.mem_cons_self _ _)
  | cons c x1 ih =>
    intro y t1 t2 hx hy h1 h2 h
    cases y with
    | nil =>
      exfalso
      rcases h2 with h2 | ⟨r, h2⟩
      · rw [h2] at h; simp at h
      · rw [h2] at h
        simp only [List.nil_append, List.cons_append, List.cons.injEq] at h
        exact hx (by rw [h.1]; exact List.mem_cons_self _ _)
    | cons d y1 =>
      simp only [List.cons_append, List.cons.injEq] at h
      obtain ⟨hcd, hrest⟩ := h
      have hx1 : ':' ∉ x1 := fun hm => hx (List.mem_cons_of_mem _ hm)
      have hy1 : ':' ∉ y1 := fun hm => hy (List.mem_cons_of_mem _ hm)
      obtain ⟨hxy, ht⟩ := ih y1 t1 t2 hx1 hy1 h1 h2 hrest
      exact ⟨by rw [hcd, hxy], ht⟩

theorem segments_of_chars (xs : List String) :
    ∀ (ys : List String) (x y : String),
      ':' ∉ x.data → ':' ∉ y.data → (∀ z ∈ xs, ':' ∉ z.data) → (∀ z ∈ ys, ':' ∉ z.data) →
      x.data ++ tailChars xs = y.data ++ tailChars ys → x = y ∧ xs = ys := by
  induction xs with
  | nil =>
    intro ys x y hx hy _ _ h
    obtain ⟨hxy, ht⟩ := split_at_separator x.data y.data _ _ hx hy
      (tailChars_shape []) (tailChars_shape ys) h
    cases ys with
    | nil => exact ⟨String.ext hxy, rfl⟩
    | cons y1 ys1 => simp [tailChars] at ht
  | cons x1 xs1 ih =>
    intro ys x y hx hy hxs hys h
    obtain ⟨hxy, ht⟩ := split_at_separator x.data y.data _ _ hx hy
      (tailChars_shape (x1 :: xs1)) (tailChars_shape ys) h
    cases ys with
    | nil => simp [tailChars] at ht
    | cons y1 ys1 =>
      simp only [tailChars, List.cons.injEq, true_and] at ht
      obtain ⟨h1, h2⟩ := ih ys1 x1 y1 (hxs x1 (List.mem_cons_self _ _))
        (hys y1 (List.mem_cons_self _ _))
        (fun z hz => hxs z (List.mem_cons_of_mem _ hz))
        (fun z hz => hys z (List.mem_cons_of_mem _ hz)) ht
      exact ⟨String.ext hxy, by rw [h1, h2]⟩

theorem MakeKey_injective_on (a b : List String) (ha : a ≠ []) (hb : b ≠ [])
    (hsa : ∀ x ∈ a, ':' ∉ x.data) (hsb : ∀ x ∈ b, ':' ∉ x.data)
    (h : MakeKey a = MakeKey b) : a = b := by
  cases a with
  | nil => exact absurd rfl ha
  | cons x xs =>
    cases b with
    | nil => exact absurd rfl hb
    | cons y ys =>
      have hd := congrArg String.data h
      rw [MakeKey_data_cons, MakeKey_data_cons] at hd
      obtain ⟨h1, h2⟩ := segments_of_chars xs ys x y (hsa x (List.mem_cons_self _ _))
        (hsb y (List.mem_cons_self _ _))
        (fun z hz => hsa z (List.mem_cons_of_mem _ hz))
        (fun z hz => hsb z (List.mem_cons_of_mem _ hz)) hd
      rw [h1, h2]

/-- C17 as stated fails: the one segment `a:b` and the two segments `a`, `b` compose to the
same key, and so do the empty list and the list of one empty segment. -/
theorem MakeKey_collisions :
    (MakeKey ["a:b"] = MakeKey ["a", "b"] ∧ (["a:b"] : List String) ≠ ["a", "b"]) ∧
      (MakeKey [] = MakeKey [""] ∧ ([] : List String) ≠ [""]) := by
  decide

/-- C17 amended (key composer distinctness). `MakeKey` is deterministic (equal segment lists
give equal keys), and two different non-empty segment lists none of whose segments contains
the separator `:` compose to different keys. -/
theorem MakeKey_distinct_without_separator :
    (∀ a b : List String, a = b → MakeKey a = MakeKey b) ∧
      (∀ a b : List String, a ≠ [] → b ≠ [] →
        (∀ x ∈ a, ':' ∉ x.data) → (∀ x ∈ b, ':' ∉ x.data) →
        a ≠ b → MakeKey a ≠ MakeKey b) :=
  ⟨fun _ _ h => by rw [h],
    fun a b ha hb hsa hsb hne h => hne (MakeKey_injective_on a b ha hb hsa hsb h)⟩

/-- Witness for the amended C17 on the keys of `TestMakeKey`. -/
theorem MakeKey_distinct_without_separator_witness :
    MakeKey ["this", "is", "key1"] = MakeKey ["this", "is", "key1"] ∧
      MakeKey ["this", "is", "key1"] ≠ MakeKey ["this", "is", "key2"] :=
  ⟨MakeKey_distinct_without_separator.1 ["this", "is", "key1"] ["this", "is", "key1"] rfl,
    MakeKey_distinct_without_separator.2 ["this", "is", "key1"] ["this", "is", "key2"]
      (by decide) (by decide) (by decide) (by decide) (by decide)⟩

/-- C20 (key composer injectivity under the caller's obligation). For non-empty segment
lists `a` and `b` none of whose segments contains the separator `:`, equal keys come from
equal lists. -/
theorem MakeKey_injective_without_separator (a b : List String) (ha : a ≠ []) (hb : b ≠ [])
    (hsa : ∀ x ∈ a, ':' ∉ x.data) (hsb : ∀ x ∈ b, ':' ∉ x.data)
    (h : MakeKey a = MakeKey b) : a = b :=
  MakeKey_injective_on a b ha hb hsa hsb h

/-- Witness for C20 on the key of the load-once cache of `TestNew`. -/
theorem MakeKey_injective_without_separator_witness :
    (["test-id-cache", "abc"] : List String) = ["test-id-cache", "abc"] :=
  MakeKey_injective_without_separator ["test-id-cache", "abc"] ["test-id-cache", "abc"]
    (by decide) (by decide) (by decide) (by decide) rfl

end claimsMakeKey

section claimsIdCache

variable {S D P : Type}

/-- C18 (load-once write-back). The cache is asked for the key `MakeKey(namespace, name)`.
On a miss (its `Get` invokes the loader once, in the state `s1`, and returns what the loader
returned) with a resolver configured that returns `(v, nil)` for `name`, leaving `s2`:
`GetOrSet` assigns `v` to `id` and calls `Set(key, v, 86400)`; with `r` the error of that
`Set`, `s3` the state it leaves, and `id` still reading `v` there, `GetOrSet` returns `(v, r)`,
which is `(v, nil)` when the write succeeds. The final state is reached by one call of the
resolver followed by that `Set`, and the calls the cache received are the `Get` and the `Set`
under that key with the TTL 86400. On a hit (its `Get` returns nil without invoking the
loader) `GetOrSet` returns what the cache decoded into `id`, whatever the resolver is. -/
theorem idCache_GetOrSet_load_once (cache : Cache S D P) (nspace name : String)
    (id : StringVar S P) (box : String → D) (s : S) :
    (∀ (loadFn : String → S → (String × Option GoError) × S) (s1 s2 s3 : S) (v : String)
        (r : Option GoError),
      cache.Get (MakeKey [nspace, name]) id.addr false (id.write "" s) =
        GetRun.invoke s1 (fun r t => GetRun.ret r t) →
      loadFn name s1 = ((v, none), s2) →
      cache.Set (MakeKey [nspace, name]) (box v) 86400 (id.write v s2) = (r, s3) →
      id.read s3 = v →
      idCache.GetOrSet ((idCache.New cache nspace).SetLoadFn (some loadFn)) id box name s =
          ((v, r), s3) ∧
        idCache.GetOrSet
            ((idCache.New (traced 0 cache) nspace).SetLoadFn (some (observedLoad loadFn)))
            (observedVar id) box name (s, []) =
          ((v, r), (s3, [Call.Get 0 (MakeKey [nspace, name]) id.addr false,
            Call.Set 0 (MakeKey [nspace, name]) (box v) 86400]))) ∧
    (∀ (loadFn : Option (String → S → (String × Option GoError) × S)) (s1 : S),
      cache.Get (MakeKey [nspace, name]) id.addr false (id.write "" s) = GetRun.ret none s1 →
      idCache.GetOrSet ((idCache.New cache nspace).SetLoadFn loadFn) id box name s =
        ((id.read s1, none), s1)) := by
  constructor
  · intro loadFn s1 s2 s3 v r hmiss hload hset hid
    constructor
    · simp only [idCache.GetOrSet, idCache.New, idCache.SetLoadFn, hmiss, GetRun.run,
        idCache.loadClosure, hload, idCache.defaultTTL]
      norm_num
      rw [hset]
      simp [hid]
    · simp only [idCache.GetOrSet, idCache.New, idCache.SetLoadFn, traced, observedVar,
        observedLoad, hmiss, logged, GetRun.run, idCache.loadClosure, hload,
        idCache.defaultTTL]
      norm_num
      rw [hset]
      simp [hid]
  · intro loadFn s1 hhit
    simp only [idCache.GetOrSet, idCache.New, idCache.SetLoadFn, hhit, GetRun.run]

/-- Witness for C18 on `TestNew`: the first `GetOrSet("abc")` misses, resolves `abc`, stores
it and returns it; a second one, in the state the first left, returns the stored identifier
and does not run the resolver again (`loads` stays 1). -/
theorem idCache_GetOrSet_load_once_witness :
    idCache.GetOrSet
        ((idCache.New (demo.localTier 0 true) "test-id-cache").SetLoadFn (some demo.loadName))
        demo.idVar demo.Val.str "abc" demo.world0 = (("abc", none), demo.world3) ∧
      idCache.GetOrSet
        ((idCache.New (demo.localTier 0 true) "test-id-cache").SetLoadFn (some demo.loadName))
        demo.idVar demo.Val.str "abc" demo.world3 = (("abc", none), demo.world3) :=
  ⟨((idCache_GetOrSet_load_once (demo.localTier 0 true) "test-id-cache" "abc" demo.idVar
      demo.Val.str demo.world0).1 demo.loadName demo.world0 { demo.world0 with loads := 1 }
      demo.world3 "abc" none rfl rfl (by decide) rfl).1,
    (idCache_GetOrSet_load_once (demo.localTier 0 true) "test-id-cache" "abc" demo.idVar
      demo.Val.str demo.world3).2 (some demo.loadName) demo.world3 rfl⟩

/-- C19 (missing resolver). The cache is asked for the key `MakeKey(namespace, name)` and
misses (its `Get` invokes the loader once, in the state `s1`, and returns what the loader
returned), the variable `id` still being empty in `s1`, and no resolver was configured. Then
`GetOrSet` returns the empty identifier with the error `missing loadFn`, in the state `s1`
itself, and the only call the cache received is that `Get`: nothing is written. -/
theorem idCache_GetOrSet_missing_loadFn (cache : Cache S D P) (nspace name : String)
    (id : StringVar S P) (box : String → D) (s s1 : S)
    (hmiss : cache.Get (MakeKey [nspace, name]) id.addr false (id.write "" s) =
      GetRun.invoke s1 (fun r t => GetRun.ret r t))
    (hid : id.read s1 = "") :
    idCache.GetOrSet (idCache.New cache nspace) id box name s =
        (("", some (Errorf "missing loadFn")), s1) ∧
      idCache.GetOrSet (idCache.New (traced 0 cache) nspace) (observedVar id) box name (s, []) =
        (("", some (Errorf "missing loadFn")),
          (s1, [Call.Get 0 (MakeKey [nspace, name]) id.addr false])) := by
  constructor
  · simp only [idCache.GetOrSet, idCache.New, hmiss, GetRun.run, idCache.loadClosure, hid]
  · simp only [idCache.GetOrSet, idCache.New, traced, observedVar, hmiss, logged, GetRun.run,
      idCache.loadClosure, hid, List.nil_append]

/-- Witness for C19 on `TestNew_With_Missing_LoadFn`: an enabled in-process backend that
does not hold the key, and no resolver. -/
theorem idCache_GetOrSet_missing_loadFn_witness :
    idCache.GetOrSet (idCache.New (demo.localTier 0 true) "test-id-cache") demo.idVar
        demo.Val.str "abc" demo.world0 =
      (("", some (Errorf "missing loadFn")), demo.world0) :=
  (idCache_GetOrSet_missing_loadFn (demo.localTier 0 true) "test-id-cache" "abc" demo.idVar
    demo.Val.str demo.world0 demo.world0 rfl rfl).1

end claimsIdCache

section nesting

variable {S D P : Type}

theorem Set_inner (key : String) (data : D) (ttl : Int) (ys zs : List (Cache S D P)) (s : S) :
    multiCaches.Set (multiCaches.New ys :: zs) key data ttl s =
      multiCaches.Set (ys ++ zs) key data ttl s := by
  induction ys generalizing s with
  | nil => simp [multiCaches.Set, multiCaches.New]
  | cons c cs ih =>
    have hstep := ih (c.Set key data ttl s).2
    rcases hc : c.Set key data ttl s with ⟨e, s1⟩
    rw [hc] at hstep
    cases e with
    | some e => simp [multiCaches.Set, multiCaches.New, hc]
    | none =>
      simp only [multiCaches.Set, multiCaches.New, List.cons_append, hc] at hstep ⊢
      exact hstep

theorem Set_after (key : String) (data : D) (ttl : Int) (xs as bs : List (Cache S D P))
    (h : ∀ s, multiCaches.Set as key data ttl s = multiCaches.Set bs key data ttl s) (s : S) :
    multiCaches.Set (xs ++ as) key data ttl s = multiCaches.Set (xs ++ bs) key data ttl s := by
  induction xs generalizing s with
  | nil => exact h s
  | cons c cs ih =>
    rcases hc : c.Set key data ttl s with ⟨e, s1⟩
    cases e with
    | some e => simp [multiCaches.Set, hc]
    | none => simp only [multiCaches.Set, List.cons_append, hc]; exact ih s1

theorem Get_inner (key : String) (ptr : P) (fnIsNil : Bool) (ys zs : List (Cache S D P))
    (s : S) :
    multiCaches.Get (multiCaches.New ys :: zs) key ptr fnIsNil s =
      multiCaches.Get (ys ++ zs) key ptr fnIsNil s := by
  induction ys generalizing s with
  | nil => simp [multiCaches.Get, multiCaches.New, GetRun.probe]
  | cons c cs ih =>
    have hstep := ih ((c.Get key ptr false s).probe true).2
    rcases hc : (c.Get key ptr false s).probe true with ⟨⟨e, b⟩, s1⟩
    rw [hc] at hstep
    cases e with
    | some e => simp [multiCaches.Get, multiCaches.New, hc, GetRun.probe]
    | none =>
      cases b with
      | true => simp [multiCaches.Get, multiCaches.New, hc, GetRun.probe]
      | false =>
        simp only [multiCaches.Get, multiCaches.New, List.cons_append, hc] at hstep ⊢
        exact hstep

theorem Get_after (key : String) (ptr : P) (fnIsNil : Bool) (xs as bs : List (Cache S D P))
    (h : ∀ s, multiCaches.Get as key ptr fnIsNil s = multiCaches.Get bs key ptr fnIsNil s)
    (s : S) :
    multiCaches.Get (xs ++ as) key ptr fnIsNil s =
      multiCaches.Get (xs ++ bs) key ptr fnIsNil s := by
  induction xs generalizing s with
  | nil => exact h s
  | cons c cs ih =>
    rcases hc : (c.Get key ptr false s).probe true with ⟨⟨e, b⟩, s1⟩
    cases e with
    | some e => simp [multiCaches.Get, hc]
    | none =>
      cases b with
      | true => simp [multiCaches.Get, hc]
      | false => simp only [multiCaches.Get, List.cons_append, hc]; exact ih s1

theorem Delete_inner (key : String) (ys zs : List (Cache S D P)) (ok acc : Bool) (s : S) :
    (match multiCaches.DeleteLoop ys key acc s with
      | ((_ok, some err), s1) => ((ok || _ok, some err), s1)
      | ((_ok, none), s1) => multiCaches.DeleteLoop zs key (ok || _ok) s1) =
      multiCaches.DeleteLoop (ys ++ zs) key (ok || acc) s := by
  induction ys generalizing acc s with
  | nil => simp [multiCaches.DeleteLoop]
  | cons c cs ih =>
    rcases hc : c.Delete key s with ⟨⟨b, e⟩, s1⟩
    cases e with
    | some e => simp [multiCaches.DeleteLoop, hc, Bool.or_assoc]
    | none =>
      have h := ih (acc || b) s1
      simp only [multiCaches.DeleteLoop, List.cons_append, hc]
      rw [Bool.or_assoc]
      exact h

theorem Delete_after (key : String) (xs as bs : List (Cache S D P))
    (h : ∀ ok s, multiCaches.DeleteLoop as key ok s = multiCaches.DeleteLoop bs key ok s)
    (ok : Bool) (s : S) :
    multiCaches.DeleteLoop (xs ++ as) key ok s = multiCaches.DeleteLoop (xs ++ bs) key ok s := by
  induction xs generalizing ok s with
  | nil => exact h ok s
  | cons c cs ih =>
    rcases hc : c.Delete key s with ⟨⟨b, e⟩, s1⟩
    cases e with
    | some e => simp [multiCaches.DeleteLoop, hc]
    | none => simp only [multiCaches.DeleteLoop, List.cons_append, hc]; exact ih _ s1

theorem IsExist_inner (key : String) (ys zs : List (Cache S D P)) (s : S) :
    multiCaches.IsExist (multiCaches.New ys :: zs) key s =
      multiCaches.IsExist (ys ++ zs) key s := by
  induction ys generalizing s with
  | nil => simp [multiCaches.IsExist, multiCaches.New]
  | cons c cs ih =>
    have hstep := ih (c.IsExist key s).2
    rcases hc : c.IsExist key s with ⟨⟨b, e⟩, s1⟩
    rw [hc] at hstep
    by_cases hstop : (b || e.isSome) = true
    · simp only [multiCaches.IsExist, multiCaches.New, List.cons_append, hc, hstop, if_true]
    · simp only [multiCaches.IsExist, multiCaches.New, List.cons_append, hc, hstop,
        if_false, Bool.false_eq_true] at hstep ⊢
      exact hstep

theorem IsExist_after (key : String) (xs as bs : List (Cache S D P))
    (h : ∀ s, multiCaches.IsExist as key s = multiCaches.IsExist bs key s) (s : S) :
    multiCaches.IsExist (xs ++ as) key s = multiCaches.IsExist (xs ++ bs) key s := by
  induction xs generalizing s with
  | nil => exact h s
  | cons c cs ih =>
    rcases hc : c.IsExist key s with ⟨⟨b, e⟩, s1⟩
    by_cases hstop : (b || e.isSome) = true
    · simp only [multiCaches.IsExist, List.cons_append, hc, hstop, if_true]
    · simp only [multiCaches.IsExist, List.cons_append, hc, hstop, if_false,
        Bool.false_eq_true]
      exact ih s1

theorem IsReady_inner (ys zs : List (Cache S D P)) (s : S) :
    multiCaches.IsReady (multiCaches.New ys :: zs) s = multiCaches.IsReady (ys ++ zs) s := by
  induction ys generalizing s with
  | nil => simp [multiCaches.IsReady, multiCaches.New]
  | cons c cs ih =>
    have hstep := ih (c.IsReady s).2
    rcases hc : c.IsReady s with ⟨b, s1⟩
    rw [hc] at hstep
    cases b with
    | false => simp [multiCaches.IsReady, multiCaches.New, hc]
    | true =>
      simp only [multiCaches.IsReady, multiCaches.New, List.cons_append, hc] at hstep ⊢
      exact hstep

theorem IsReady_after (xs as bs : List (Cache S D P))
    (h : ∀ s, multiCaches.IsReady as s = multiCaches.IsReady bs s) (s : S) :
    multiCaches.IsReady (xs ++ as) s = multiCaches.IsReady (xs ++ bs) s := by
  induction xs generalizing s with
  | nil => exact h s
  | cons c cs ih =>
    rcases hc : c.IsReady s with ⟨b, s1⟩
    cases b with
    | false => simp [multiCaches.IsReady, hc]
    | true => simp only [multiCaches.IsReady, List.cons_append, hc]; exact ih s1

theorem IsEnable_inner (ys zs : List (Cache S D P)) (s : S) :
    multiCaches.IsEnable (multiCaches.New ys :: zs) s = multiCaches.IsEnable (ys ++ zs) s := by
  induction ys generalizing s with
  | nil => simp [multiCaches.IsEnable, multiCaches.New]
  | cons c cs ih =>
    have hstep := ih (c.IsEnable s).2
    rcases hc : c.IsEnable s with ⟨b, s1⟩
    rw [hc] at hstep
    cases b with
    | true => simp [multiCaches.IsEnable, multiCaches.New, hc]
    | false =>
      simp only [multiCaches.IsEnable, multiCaches.New, List.cons_append, hc] at hstep ⊢
      exact hstep

theorem IsEnable_after (xs as bs : List (Cache S D P))
    (h : ∀ s, multiCaches.IsEnable as s = multiCaches.IsEnable bs s) (s : S) :
    multiCaches.IsEnable (xs ++ as) s = multiCaches.IsEnable (xs ++ bs) s := by
  induction xs generalizing s with
  | nil => exact h s
  | cons c cs ih =>
    rcases hc : c.IsEnable s with ⟨b, s1⟩
    cases b with
    | true => simp [multiCaches.IsEnable, hc]
    | false => simp only [multiCaches.IsEnable, List.cons_append, hc]; exact ih s1

theorem DeleteLoop_inner (key : String) (ys zs : List (Cache S D P)) (ok : Bool) (s : S) :
    multiCaches.DeleteLoop (multiCaches.New ys :: zs) key ok s =
      multiCaches.DeleteLoop (ys ++ zs) key ok s := by
  have h := Delete_inner key ys zs ok false s
  rw [Bool.or_false] at h
  rw [← h]
  simp only [multiCaches.DeleteLoop, multiCaches.New, multiCaches.Delete]

/-- For tiers over any state, the composite of `xs`, then a composite of `ys`, then `zs`
computes, for `Set`, `Get`, `Delete`, `IsExist`, `IsReady` and `IsEnable`, exactly what the
composite of `xs ++ ys ++ zs` computes: the same result in the same state. -/
theorem nested_eq_flat (xs ys zs : List (Cache S D P)) :
    (∀ key data ttl s,
      (multiCaches.New (xs ++ multiCaches.New ys :: zs)).Set key data ttl s =
        (multiCaches.New (xs ++ ys ++ zs)).Set key data ttl s) ∧
    (∀ key ptr fnIsNil s,
      (multiCaches.New (xs ++ multiCaches.New ys :: zs)).Get key ptr fnIsNil s =
        (multiCaches.New (xs ++ ys ++ zs)).Get key ptr fnIsNil s) ∧
    (∀ key s,
      (multiCaches.New (xs ++ multiCaches.New ys :: zs)).Delete key s =
        (multiCaches.New (xs ++ ys ++ zs)).Delete key s) ∧
    (∀ key s,
      (multiCaches.New (xs ++ multiCaches.New ys :: zs)).IsExist key s =
        (multiCaches.New (xs ++ ys ++ zs)).IsExist key s) ∧
    (∀ s,
      (multiCaches.New (xs ++ multiCaches.New ys :: zs)).IsReady s =
        (multiCaches.New (xs ++ ys ++ zs)).IsReady s) ∧
    (∀ s,
      (multiCaches.New (xs ++ multiCaches.New ys :: zs)).IsEnable s =
        (multiCaches.New (xs ++ ys ++ zs)).IsEnable s) := by
  refine ⟨?_, ?_, ?_, ?_, ?_, ?_⟩
  · intro key data ttl s
    show multiCaches.Set (xs ++ multiCaches.New ys :: zs) key data ttl s =
      multiCaches.Set (xs ++ ys ++ zs) key data ttl s
    rw [List.append_assoc]
    exact Set_after key data ttl xs _ _ (Set_inner key data ttl ys zs) s
  · intro key ptr fnIsNil s
    show multiCaches.Get (xs ++ multiCaches.New ys :: zs) key ptr fnIsNil s =
      multiCaches.Get (xs ++ ys ++ zs) key ptr fnIsNil s
    rw [List.append_assoc]
    exact Get_after key ptr fnIsNil xs _ _ (Get_inner key ptr fnIsNil ys zs) s
  · intro key s
    show multiCaches.DeleteLoop (xs ++ multiCaches.New ys :: zs) key false s =
      multiCaches.DeleteLoop (xs ++ ys ++ zs) key false s
    rw [List.append_assoc]
    exact Delete_after key xs _ _ (DeleteLoop_inner key ys zs) false s
  · intro key s
    show multiCaches.IsExist (xs ++ multiCaches.New ys :: zs) key s =
      multiCaches.IsExist (xs ++ ys ++ zs) key s
    rw [List.append_assoc]
    exact IsExist_after key xs _ _ (IsExist_inner key ys zs) s
  · intro s
    show multiCaches.IsReady (xs ++ multiCaches.New ys :: zs) s =
      multiCaches.IsReady (xs ++ ys ++ zs) s
    rw [List.append_assoc]
    exact IsReady_after xs _ _ (IsReady_inner ys zs) s
  · intro s
    show multiCaches.IsEnable (xs ++ multiCaches.New ys :: zs) s =
      multiCaches.IsEnable (xs ++ ys ++ zs) s
    rw [List.append_assoc]
    exact IsEnable_after xs _ _ (IsEnable_inner ys zs) s

theorem flatTiers_eq (xs ys zs : List (Cache S D P)) :
    flatTiers xs ys zs =
      tracedFrom 0 xs ++ tracedFrom xs.length ys ++ tracedFrom (xs.length + ys.length) zs := by
  simp [flatTiers, tracedFrom_append]

/-- C21 (nesting is transparent). For all tier lists `xs`, `ys`, `zs` of arbitrary tiers,
observed as leaves numbered in the order `xs`, `ys`, `zs`, and from every state and call log:
the composite of `xs`, then a composite of `ys`, then `zs` and the flat composite of
`xs ++ ys ++ zs` give, for each of `Set`, `Get`, `Delete`, `IsExist`, `IsReady` and `IsEnable`,
the same result, the same state (which holds the output) and the same log of calls on the
leaf tiers; for `Get` the two runs are the same, so they agree against every loader. -/
theorem multiCaches_nesting_transparent (xs ys zs : List (Cache S D P))
    (t : S × List (Call D P)) :
    (∀ key data ttl,
      (multiCaches.New (nestedTiers xs ys zs)).Set key data ttl t =
        (multiCaches.New (flatTiers xs ys zs)).Set key data ttl t) ∧
    (∀ key ptr fnIsNil,
      (multiCaches.New (nestedTiers xs ys zs)).Get key ptr fnIsNil t =
        (multiCaches.New (flatTiers xs ys zs)).Get key ptr fnIsNil t) ∧
    (∀ key,
      (multiCaches.New (nestedTiers xs ys zs)).Delete key t =
        (multiCaches.New (flatTiers xs ys zs)).Delete key t) ∧
    (∀ key,
      (multiCaches.New (nestedTiers xs ys zs)).IsExist key t =
        (multiCaches.New (flatTiers xs ys zs)).IsExist key t) ∧
    (multiCaches.New (nestedTiers xs ys zs)).IsReady t =
        (multiCaches.New (flatTiers xs ys zs)).IsReady t ∧
    (multiCaches.New (nestedTiers xs ys zs)).IsEnable t =
        (multiCaches.New (flatTiers xs ys zs)).IsEnable t := by
  have h := nested_eq_flat (tracedFrom 0 xs) (tracedFrom xs.length ys)
    (tracedFrom (xs.length + ys.length) zs)
  rw [flatTiers_eq]
  unfold nestedTiers
  exact ⟨fun key data ttl => h.1 key data ttl t, fun key ptr fnIsNil => h.2.1 key ptr fnIsNil t,
    fun key => h.2.2.1 key t, fun key => h.2.2.2.1 key t, h.2.2.2.2.1 t, h.2.2.2.2.2 t⟩

end nesting
